import Mathlib

/-!
# Realm directory of `realmd`: build catalog and realm registry

A shallow embedding of `src/Realm/RealmList.cpp`.

* Machine integers are natural numbers; a narrowing conversion is an explicit
  `% 2 ^ w`.
* A pointer into the static catalog is modelled by the entry it designates, a
  pointer to a node of the name map `m_realms` by the key (the realm name) of
  that node.
* Behaviour that C++ leaves undefined (reading past the end of an array,
  dereferencing `begin()` of an empty set) is the outer `none` of an `Option`.
-/

namespace Realmd

/-! ## Build catalog -/

/-- Modelled from the spec: the declaration of `struct RealmBuildInfo` lives in
`RealmList.h`, which is not part of the sources.  The initialisers of
`ExpectedRealmdClientBuilds` fix the order of the members: build, three version
numbers, the hotfix character and two 20-byte fingerprints; the names of the
first five are the ones `UpdateRealm` assigns to, the two fingerprints take the
names of the spec. -/
structure RealmBuildInfo where
  build : Nat
  major_version : Nat
  minor_version : Nat
  bugfix_version : Nat
  hotfix_version : Char
  execHash : List Nat
  dllHash : List Nat
deriving DecidableEq, Repr

/-- The aggregate initialiser `{ { } }` of a 20-byte fingerprint: all bytes zero. -/
def noHash : List Nat := List.replicate 20 0

/-- The static catalog, highest build first, closed by the terminator entry. -/
def ExpectedRealmdClientBuilds : List RealmBuildInfo :=
  [ ⟨18414, 5, 4, 8, ' ', noHash, noHash⟩,
    ⟨18273, 5, 4, 8, ' ', noHash, noHash⟩,
    ⟨15595, 4, 3, 4, ' ', noHash, noHash⟩,
    ⟨13930, 3, 3, 5, 'a', noHash, noHash⟩,
    ⟨12340, 3, 3, 5, 'a',
      [0xCD, 0xCB, 0xBD, 0x51, 0x88, 0x31, 0x5E, 0x6B, 0x4D, 0x19, 0x44, 0x9D, 0x49, 0x2D, 0xBC, 0xFA, 0xF1, 0x56, 0xA3, 0x47],
      [0xB7, 0x06, 0xD1, 0x3F, 0xF2, 0xF4, 0x01, 0x88, 0x39, 0x72, 0x94, 0x61, 0xE3, 0xF8, 0xA0, 0xE2, 0xB5, 0xFD, 0xC0, 0x34]⟩,
    ⟨11723, 3, 3, 3, 'a', noHash, noHash⟩,
    ⟨11403, 3, 3, 2, ' ', noHash, noHash⟩,
    ⟨11159, 3, 3, 0, 'a', noHash, noHash⟩,
    ⟨10505, 3, 2, 2, 'a', noHash, noHash⟩,
    ⟨8606, 2, 4, 3, ' ',
      [0x31, 0x9A, 0xFA, 0xA3, 0xF2, 0x55, 0x96, 0x82, 0xF9, 0xFF, 0x65, 0x8B, 0xE0, 0x14, 0x56, 0x25, 0x5F, 0x45, 0x6F, 0xB1],
      noHash⟩,
    ⟨6141, 1, 12, 3, ' ', noHash, noHash⟩,
    ⟨6005, 1, 12, 2, ' ', noHash, noHash⟩,
    ⟨5875, 1, 12, 1, ' ',
      noHash,
      [0x8D, 0x17, 0x3C, 0xC3, 0x81, 0x96, 0x1E, 0xEB, 0xAB, 0xF3, 0x36, 0xF5, 0xE6, 0x67, 0x5B, 0x10, 0x1B, 0xB5, 0x13, 0xE5]⟩,
    ⟨5464, 1, 11, 2, ' ', noHash, noHash⟩,
    ⟨5302, 1, 10, 2, ' ', noHash, noHash⟩,
    ⟨5086, 1, 9, 4, ' ', noHash, noHash⟩,
    ⟨0, 0, 0, 0, ' ', noHash, noHash⟩ ]

/-- The `for` loop of `FindBuildInfo`, started on the entries from index `1` on:
it stops with "not found" at the first entry whose build is `0` and with the
entry on an exact match.  Running off the end of the array is the outer `none`. -/
def FindBuildInfo.scan (_build : Nat) : List RealmBuildInfo → Option (Option RealmBuildInfo)
  | [] => none
  | e :: rest =>
    if e.build = 0 then some none
    else if _build = e.build then some (some e)
    else FindBuildInfo.scan _build rest

/-- `FindBuildInfo(uint16 _build)`: the inner option is the returned pointer
(`none` is `NULL`). -/
def FindBuildInfo (_build : Nat) : Option (Option RealmBuildInfo) :=
  match ExpectedRealmdClientBuilds with
  | [] => none
  | top :: rest =>
    if _build ≥ top.build then some (some top)
    else FindBuildInfo.scan _build rest

/-- The catalog entries below the top one and above the terminator. -/
def catalogMiddle : List RealmBuildInfo :=
  (ExpectedRealmdClientBuilds.drop 1).takeWhile (fun e => e.build != 0)

/-! ## Machine integers and containers -/

/-- Conversion of an integer value to `uint32`. -/
def toUInt32 (x : Int) : Nat := (x % 2 ^ 32).toNat

/-- Conversion of an unsigned value to a 32-bit `int` (two's complement). -/
def toInt32 (x : Nat) : Int :=
  if x % 2 ^ 32 < 2 ^ 31 then ((x % 2 ^ 32 : Nat) : Int) else ((x % 2 ^ 32 : Nat) : Int) - 2 ^ 32

/-- Conversion of an unsigned value to `uint16`. -/
def toUInt16 (x : Nat) : Nat := x % 2 ^ 16

/-- Conversion of an unsigned value to `uint8`. -/
def toUInt8 (x : Nat) : Nat := x % 2 ^ 8

/-- Bitwise complement of a non-negative `int` constant, read as a 32-bit pattern. -/
def bitNot32 (x : Nat) : Nat := (2 ^ 32 - 1) ^^^ x

/-- `std::map::find`: the value stored under the key, if any. -/
def mapFind {α β : Type} [DecidableEq α] (k : α) : List (α × β) → Option β
  | [] => none
  | (k', v) :: rest => if k' = k then some v else mapFind k rest

/-- Assignment `m[k] = v` of a `std::map`: the node of `k` takes the value `v`;
a node is created when the key is new. -/
def mapAssign {α β : Type} [DecidableEq α] (k : α) (v : β) : List (α × β) → List (α × β)
  | [] => [(k, v)]
  | (k', v') :: rest => if k' = k then (k, v) :: rest else (k', v') :: mapAssign k v rest

/-- `std::set<uint32>::insert` on the ascending, duplicate-free list of the members. -/
def setInsert (x : Nat) : List Nat → List Nat
  | [] => [x]
  | y :: ys => if x < y then x :: y :: ys else if x = y then y :: ys else y :: setInsert x ys

/-- The `std::set<uint32>` that holds exactly the given numbers. -/
def buildSet (l : List Nat) : List Nat :=
  l.foldl (fun s x => setInsert x s) []

/-! ## String helpers -/

/-- The loop of `StrSplit`: `s` is the token read so far. -/
def StrSplit.go (sep : List Char) : List Char → List Char → List (List Char)
  | [], s => if s.length ≠ 0 then [s] else []
  | c :: cs, s =>
    if c ∈ sep then (if s.length ≠ 0 then [s] else []) ++ StrSplit.go sep cs []
    else StrSplit.go sep cs (s ++ [c])

/-- Modelled from the spec: `StrSplit` is defined in `Util.cpp`, which is not
part of the sources.  It cuts the string at every separator character into the
tokens between them ("parsed from a space-separated string"); a token without
characters is not reported. -/
def StrSplit (src sep : String) : List String :=
  (StrSplit.go sep.data src.data []).map String.mk

/-- The digits read by `atol`, most significant first, up to the first character
that is no digit. -/
def atol.digits (acc : Nat) : List Char → Nat
  | [] => acc
  | c :: cs => if c.isDigit then atol.digits (10 * acc + (c.toNat - 48)) cs else acc

/-- The C library function `atol` (for a 64-bit `long`): white space is skipped,
an optional sign is read, then decimal digits up to the first other character;
no digits give 0 and a value out of range is clamped as `strtol` does. -/
def atol (s : String) : Int :=
  let cs := s.data.dropWhile (fun c => c = ' ' ∨ (9 ≤ c.toNat ∧ c.toNat ≤ 13))
  let v : Int :=
    match cs with
    | '-' :: ds => - (atol.digits 0 ds : Int)
    | '+' :: ds => (atol.digits 0 ds : Int)
    | ds => (atol.digits 0 ds : Int)
  max (-(2 ^ 63)) (min v (2 ^ 63 - 1))

/-- The build numbers `UpdateRealm` reads from the builds column, in the order
of the tokens: `uint32 build = atol(token)`. -/
def parsedBuilds (builds : String) : List Nat :=
  (StrSplit builds " ").map (fun t => toUInt32 (atol t))

/-! ## Eras -/

/-- Modelled from the spec: `enum RealmVersion` is declared in `RealmList.h`,
which is not part of the sources: one value per client generation, ordered
oldest to newest, plus the sentinel `REALM_VERSION_COUNT` that sizes
`m_realmsByVersion`.  The enumerators are the ones `InitBuildToVersion` names. -/
abbrev RealmVersion := Nat

def REALM_VERSION_VANILLA : RealmVersion := 0
def REALM_VERSION_TBC : RealmVersion := 1
def REALM_VERSION_WOTLK : RealmVersion := 2
def REALM_VERSION_CATA : RealmVersion := 3
def REALM_VERSION_MOP : RealmVersion := 4
def REALM_VERSION_WOD : RealmVersion := 5
def REALM_VERSION_LEGION : RealmVersion := 6
def REALM_VERSION_BFA : RealmVersion := 7
def REALM_VERSION_SHADOWLANDS : RealmVersion := 8
def REALM_VERSION_COUNT : RealmVersion := 9

/-! ## Realm flags and security levels -/

/-- Modelled from the spec: `enum RealmFlags` is declared in `RealmList.h`, which
is not part of the sources; the masks are the ones the diagnostic of
`UpdateRealms` prints. -/
def REALM_FLAG_OFFLINE : Nat := 0x02
def REALM_FLAG_SPECIFYBUILD : Nat := 0x04
def REALM_FLAG_NEW_PLAYERS : Nat := 0x20
def REALM_FLAG_RECOMMENDED : Nat := 0x40

/-- The flags a realm may carry: the operand of both `&` in `UpdateRealms`. -/
def allowedRealmFlags : Nat :=
  REALM_FLAG_OFFLINE ||| REALM_FLAG_NEW_PLAYERS ||| REALM_FLAG_RECOMMENDED |||
    REALM_FLAG_SPECIFYBUILD

/-- Modelled from the spec: `enum AccountTypes` is declared in `Common.h`, which
is not part of the sources; `SEC_ADMINISTRATOR` is the maximum administrative
level. -/
def SEC_ADMINISTRATOR : Nat := 3

/-! ## Realms and the registry -/

/-- An `ACE_INET_Addr` as the arguments it is constructed from: the port, which
the constructor takes as a 16-bit `u_short`, and the host string. -/
structure ACE_INET_Addr where
  port : Nat
  host : String
deriving DecidableEq, Repr

/-- Modelled from the spec: `struct Realm` is declared in `RealmList.h`, which
is not part of the sources; the members are the ones `UpdateRealm` assigns.
`populationLevel` is the bit pattern of the `float`, which is only copied. -/
structure Realm where
  ExternalAddress : ACE_INET_Addr
  LocalAddress : ACE_INET_Addr
  LocalSubnetMask : ACE_INET_Addr
  name : String
  icon : Nat
  realmflags : Nat
  timezone : Nat
  m_ID : Nat
  allowedSecurityLevel : Nat
  populationLevel : Nat
  realmbuilds : List Nat
  realmBuildInfo : RealmBuildInfo
deriving DecidableEq, Repr

/-- The value-initialised `Realm` that `m_realms[name]` creates for a new name. -/
def Realm.fresh : Realm :=
  { ExternalAddress := ⟨0, ""⟩, LocalAddress := ⟨0, ""⟩, LocalSubnetMask := ⟨0, ""⟩,
    name := "", icon := 0, realmflags := 0, timezone := 0, m_ID := 0,
    allowedSecurityLevel := 0, populationLevel := 0, realmbuilds := [],
    realmBuildInfo := ⟨0, 0, 0, 0, Char.ofNat 0, noHash, noHash⟩ }

/-- The lines written to `sLog`. -/
inductive LogLine where
  | updating
  | noBuilds (name : String)
  | badFlags (id : Nat) (name : String)
  | added (id : Nat) (name : String)
deriving DecidableEq, Repr

/-- One row of the query result, as the values the `Field` getters return. -/
structure Row where
  id : Nat
  name : String
  address : String
  localAddress : String
  localSubnetMask : String
  port : Nat
  icon : Nat
  realmflags : Nat
  timezone : Nat
  allowedSecurityLevel : Nat
  population : Nat
  realmbuilds : String
deriving DecidableEq, Repr

/-- A non-null `QueryResult`: the row the cursor stands on and the rows that
`NextRow` moves to. -/
structure QueryResult where
  current : Row
  next : List Row
deriving DecidableEq, Repr

/-- The result of the query for a list of rows: `NULL` when there is none. -/
def QueryResult.ofRows : List Row → Option QueryResult
  | [] => none
  | r :: rs => some ⟨r, rs⟩

/-- The members of `class RealmList` that `RealmList.cpp` uses, together with
the output of the logger `sLog`.  A `const Realm*` held in `m_realmsByVersion`
is the key of the node of `m_realms` it points to. -/
structure RealmList where
  m_realms : List (String × Realm)
  m_realmsByVersion : List (List String)
  m_buildToVersion : List (Nat × RealmVersion)
  m_UpdateInterval : Nat
  m_NextUpdateTime : Nat
  sLog : List LogLine
deriving DecidableEq, Repr

namespace RealmList

/-- The constructor `RealmList::RealmList()` at clock reading `now`; the array
`m_realmsByVersion` has `REALM_VERSION_COUNT` empty lists. -/
def ctor (now : Nat) (log : List LogLine) : RealmList :=
  { m_realms := [], m_realmsByVersion := List.replicate REALM_VERSION_COUNT [],
    m_buildToVersion := [], m_UpdateInterval := 0, m_NextUpdateTime := now, sLog := log }

/-- A call of `sLog.outError`, `sLog.outString` or `DETAIL_LOG`. -/
def log (rl : RealmList) (line : LogLine) : RealmList :=
  { rl with sLog := rl.sLog ++ [line] }

/-- `RealmList::BelongsToVersion(uint32 build)`. -/
def BelongsToVersion (rl : RealmList) (build : Nat) : RealmVersion :=
  match mapFind build rl.m_buildToVersion with
  | some v => v
  | none => REALM_VERSION_VANILLA

/-- `RealmList::GetIteratorsForBuild`: the references in the returned range
`[first, second)`. -/
def GetIteratorsForBuild (rl : RealmList) (build : Nat) : Option (List String) :=
  let version := rl.BelongsToVersion build
  if version ≥ REALM_VERSION_COUNT then
    (rl.m_realmsByVersion[0]?).map (fun _ => [])
  else
    rl.m_realmsByVersion[version]?

/-- `RealmList::NumRealmsForBuild`; the array access has no range check. -/
def NumRealmsForBuild (rl : RealmList) (build : Nat) : Option Nat :=
  (rl.m_realmsByVersion[rl.BelongsToVersion build]?).map List.length

/-- `RealmList::AddRealmToBuildList`: `*(builds.begin())` goes through an `int`
into the `uint32` parameter of `BelongsToVersion`. -/
def AddRealmToBuildList (rl : RealmList) (realm : Realm) : Option RealmList :=
  match realm.realmbuilds with
  | [] => none
  | b :: _ =>
    let buildNumber : Int := toInt32 b
    let version := rl.BelongsToVersion (toUInt32 buildNumber)
    match rl.m_realmsByVersion[version]? with
    | none => none
    | some refs =>
      some { rl with m_realmsByVersion := rl.m_realmsByVersion.set version (refs ++ [realm.name]) }

/-- `RealmList::InitBuildToVersion`. -/
def InitBuildToVersion (rl : RealmList) : RealmList :=
  { rl with m_buildToVersion :=
      (((((((((((rl.m_buildToVersion
        |> mapAssign 5875 REALM_VERSION_VANILLA)
        |> mapAssign 6005 REALM_VERSION_VANILLA)
        |> mapAssign 6141 REALM_VERSION_VANILLA)
        |> mapAssign 8606 REALM_VERSION_TBC)
        |> mapAssign 12340 REALM_VERSION_WOTLK)
        |> mapAssign 15595 REALM_VERSION_CATA)
        |> mapAssign 18273 REALM_VERSION_MOP)
        |> mapAssign 18414 REALM_VERSION_MOP)
        |> mapAssign 21742 REALM_VERSION_WOD)
        |> mapAssign 26972 REALM_VERSION_LEGION)
        |> mapAssign 35662 REALM_VERSION_BFA)
        |> mapAssign 40000 REALM_VERSION_SHADOWLANDS }

/-- The node `m_realms[name]` as `operator[]` returns it: the stored realm, or a
value-initialised one when the name is new. -/
def node (rl : RealmList) (name : String) : Realm :=
  (mapFind name rl.m_realms).getD Realm.fresh

/-- The `for` loop of `UpdateRealm` over the tokens: every token is converted
with `atol` and inserted into `realm.realmbuilds`. -/
def UpdateRealm.insertBuilds (tokens : List String) (realmbuilds : List Nat) : List Nat :=
  tokens.foldl (fun s t => setInsert (toUInt32 (atol t)) s) realmbuilds

/-- The initialiser of `uint16 first_build` in `UpdateRealm`. -/
def UpdateRealm.firstBuild (realmbuilds : List Nat) : Nat :=
  match realmbuilds with
  | [] => 0
  | b :: _ => toUInt16 b

/-- The assignments of `UpdateRealm` to `realm.realmBuildInfo`: the placeholder,
then the catalog entry when `FindBuildInfo` returns one with the same build. -/
def UpdateRealm.buildInfo (old : RealmBuildInfo) (first_build : Nat) : Option RealmBuildInfo := do
  let info := { old with
    build := first_build, major_version := 0, minor_version := 0, bugfix_version := 0,
    hotfix_version := ' ' }
  if first_build ≠ 0 then
    match ← FindBuildInfo first_build with
    | some bInfo => if bInfo.build = first_build then some bInfo else some info
    | none => some info
  else some info

/-- `RealmList::UpdateRealm`.  `realm` is the node `m_realms[name]`; it is
written back under `name` at the end. -/
def UpdateRealm (rl : RealmList) (ID : Nat) (name : String)
    (address localAddr localSubmask : ACE_INET_Addr) (port : Nat) (icon : Nat)
    (realmflags : Nat) (timezone : Nat) (allowedSecurityLevel : Nat) (popu : Nat)
    (builds : String) : Option RealmList := do
  let _ := port
  let realm : Realm := rl.node name
  let realm := { realm with
    m_ID := ID, name := name, icon := icon, realmflags := realmflags, timezone := timezone,
    allowedSecurityLevel := allowedSecurityLevel, populationLevel := popu }
  let realm := { realm with
    realmbuilds := UpdateRealm.insertBuilds (StrSplit builds " ") realm.realmbuilds }
  let first_build := UpdateRealm.firstBuild realm.realmbuilds
  let rl ← if first_build ≠ 0 then rl.AddRealmToBuildList realm
    else some (rl.log (.noBuilds name))
  let info ← UpdateRealm.buildInfo realm.realmBuildInfo first_build
  let realm := { realm with
    realmBuildInfo := info,
    ExternalAddress := address, LocalAddress := localAddr, LocalSubnetMask := localSubmask }
  some { rl with m_realms := mapAssign name realm rl.m_realms }

/-- The body of the `do ... while` loop of `UpdateRealms` for the row `fields`. -/
def UpdateRealmsRow (rl : RealmList) (init : Bool) (fields : Row) : Option RealmList := do
  let Id := fields.id % 2 ^ 32
  let name := fields.name
  let port := fields.port % 2 ^ 32
  let icon := toUInt8 fields.icon
  let realmflags := toUInt8 fields.realmflags
  let timezone := toUInt8 fields.timezone
  let allowedSecurityLevel := toUInt8 fields.allowedSecurityLevel
  let population := fields.population
  let externalAddr : ACE_INET_Addr := ⟨toUInt16 port, fields.address⟩
  let localAddr : ACE_INET_Addr := ⟨toUInt16 port, fields.localAddress⟩
  let submask : ACE_INET_Addr := ⟨0, fields.localSubnetMask⟩
  let bad := realmflags &&& bitNot32 allowedRealmFlags ≠ 0
  let rl := if bad then rl.log (.badFlags Id name) else rl
  let realmflags := if bad then realmflags &&& allowedRealmFlags else realmflags
  let rl ← rl.UpdateRealm Id name externalAddr localAddr submask port icon realmflags timezone
    (if allowedSecurityLevel ≤ SEC_ADMINISTRATOR then allowedSecurityLevel else SEC_ADMINISTRATOR)
    population fields.realmbuilds
  some (if init then rl.log (.added Id name) else rl)

/-- The `do ... while (result->NextRow())` loop of `UpdateRealms`. -/
def UpdateRealms.loop (init : Bool) : RealmList → Row → List Row → Option RealmList
  | rl, fields, [] => rl.UpdateRealmsRow init fields
  | rl, fields, r :: rs => do
    let rl ← rl.UpdateRealmsRow init fields
    UpdateRealms.loop init rl r rs

/-- `RealmList::UpdateRealms(bool init)`; `result` is what
`LoginDatabase.Query` returns, `none` being the null pointer. -/
def UpdateRealms (rl : RealmList) (init : Bool) (result : Option QueryResult) :
    Option RealmList :=
  let rl := rl.log .updating
  match result with
  | some r => UpdateRealms.loop init rl r.current r.next
  | none => some rl

/-- The loop of `UpdateIfNeed` that clears `m_realmsByVersion[i]` for every
`i < REALM_VERSION_COUNT`. -/
def clearRealmsByVersion (byVersion : List (List String)) : Option (List (List String)) :=
  (List.range REALM_VERSION_COUNT).foldlM
    (fun acc i => if i < acc.length then some (acc.set i []) else none) byVersion

/-- `RealmList::UpdateIfNeed` when `time(NULL)` reads `now`; `result` is what
the query of the reload returns if the reload is made. -/
def UpdateIfNeed (rl : RealmList) (now : Nat) (result : Option QueryResult) :
    Option RealmList :=
  if rl.m_UpdateInterval = 0 ∨ rl.m_NextUpdateTime > now then some rl
  else do
    let rl := { rl with m_NextUpdateTime := now + rl.m_UpdateInterval }
    let rl := { rl with m_realms := [] }
    let cleared ← clearRealmsByVersion rl.m_realmsByVersion
    let rl := { rl with m_realmsByVersion := cleared }
    rl.UpdateRealms false result

/-- `RealmList::Initialize(uint32 updateInterval)`. -/
def Initialize (rl : RealmList) (updateInterval : Nat) (result : Option QueryResult) :
    Option RealmList :=
  let rl := { rl with m_UpdateInterval := updateInterval }
  let rl := rl.InitBuildToVersion
  rl.UpdateRealms true result

end RealmList

/-- The registry states of a process: the singleton is constructed, `Initialize`
is called once, then `UpdateIfNeed` any number of times. -/
inductive Reachable : RealmList → Prop where
  | init (now : Nat) (log : List LogLine) (updateInterval : Nat)
      (result : Option QueryResult) (rl : RealmList) :
      (RealmList.ctor now log).Initialize updateInterval result = some rl → Reachable rl
  | step (rl : RealmList) (now : Nat) (result : Option QueryResult) (rl' : RealmList) :
      Reachable rl → rl.UpdateIfNeed now result = some rl' → Reachable rl'

/-- The array `m_realmsByVersion` has its declared size and `m_buildToVersion`
holds eras below `REALM_VERSION_COUNT` only. -/
def RealmList.WF (rl : RealmList) : Prop :=
  rl.m_realmsByVersion.length = REALM_VERSION_COUNT ∧
  ∀ kv ∈ rl.m_buildToVersion, kv.2 < REALM_VERSION_COUNT

instance (rl : RealmList) : Decidable rl.WF := by
  unfold RealmList.WF; infer_instance

/-- No era partition holds a reference to the realm `name`. -/
def RealmList.Unreferenced (rl : RealmList) (name : String) : Prop :=
  ∀ refs ∈ rl.m_realmsByVersion, name ∉ refs

instance (rl : RealmList) (name : String) : Decidable (rl.Unreferenced name) := by
  unfold RealmList.Unreferenced; infer_instance

/-- Every reference held in an era partition points to a node of `m_realms`. -/
def RealmList.RefsValid (rl : RealmList) : Prop :=
  ∀ refs ∈ rl.m_realmsByVersion, ∀ n ∈ refs, mapFind n rl.m_realms ≠ none

instance (rl : RealmList) : Decidable rl.RefsValid := by
  unfold RealmList.RefsValid; infer_instance

/-- The number of references held in all era partitions together. -/
def RealmList.totalRefs (rl : RealmList) : Nat :=
  (rl.m_realmsByVersion.map List.length).sum

/-- The references held in the partition of era `v`. -/
def RealmList.partition (rl : RealmList) (v : RealmVersion) : List String :=
  rl.m_realmsByVersion.getD v []

/-- The array `m_realmsByVersion` as `UpdateRealm` leaves it for the realm `name`
whose build set has become `realmbuilds`: a reference is appended to the
partition of the era of the lowest build unless `first_build` is 0. -/
def RealmList.byVersionAfter (rl : RealmList) (name : String) (realmbuilds : List Nat) :
    List (List String) :=
  match realmbuilds with
  | [] => rl.m_realmsByVersion
  | b :: _ =>
    if toUInt16 b = 0 then rl.m_realmsByVersion
    else rl.m_realmsByVersion.set (rl.BelongsToVersion (b % 2 ^ 32))
      (rl.partition (rl.BelongsToVersion (b % 2 ^ 32)) ++ [name])

/-- A row of the store used in examples. -/
def sampleRow : Row :=
  ⟨1, "A", "10.0.0.1", "127.0.0.1", "255.255.255.0", 8085, 0, 0, 1, 0, 0, "12340"⟩

/-- The registry after construction at time 0 and `Initialize(60)` on a store
that holds `sampleRow` only. -/
def sampleRegistry : RealmList :=
  ((RealmList.ctor 0 []).Initialize 60 (some ⟨sampleRow, []⟩)).getD (RealmList.ctor 0 [])

/-! ## The store -/

/-- The rows of a query result in the order of the cursor; the null pointer has
none. -/
def QueryResult.rows : Option QueryResult → List Row
  | none => []
  | some q => q.current :: q.next

/-- The order of two names, character by character. -/
def nameLe : List Char → List Char → Bool
  | [], _ => true
  | _ :: _, [] => false
  | a :: as, b :: bs =>
    if a.toNat < b.toNat then true
    else if b.toNat < a.toNat then false
    else nameLe as bs

/-- Modelled from the spec: `LoginDatabase.Query` and the database behind it
(`Database/DatabaseEnv.h`) are not part of the sources.  As the spec has it, the
store filters the rows itself and returns them ordered by name, ascending; the
filter and the order are those of the statement text in `UpdateRealms`,
`WHERE (realmflags & 1) = 0 ORDER BY name`, evaluated on the rows of the table
`realmlist` (names compared in a binary collation).  The result is the null
pointer when no row is selected. -/
def LoginDatabase.Query (realmlist : List Row) : Option QueryResult :=
  QueryResult.ofRows
    ((realmlist.filter (fun r => r.realmflags &&& 1 = 0)).insertionSort
      (fun a b => nameLe a.name.data b.name.data = true))

/-- The test of `UpdateIfNeed` fails, so the call goes on to the reload. -/
def RealmList.reloads (rl : RealmList) (now : Nat) : Prop :=
  ¬(rl.m_UpdateInterval = 0 ∨ rl.m_NextUpdateTime > now)

instance (rl : RealmList) (now : Nat) : Decidable (rl.reloads now) := by
  unfold RealmList.reloads; infer_instance

/-- The number of reloads, each of which starts with the line `updating`, that
a log records. -/
def reloadCount (log : List LogLine) : Nat :=
  log.count LogLine.updating

/-- The registry `sampleRegistry` after `UpdateIfNeed` at time 45, which reloads
the same store and schedules the next reload for time 105. -/
def scheduledRegistry : RealmList :=
  (sampleRegistry.UpdateIfNeed 45 (some ⟨sampleRow, []⟩)).getD sampleRegistry

/-- The registry after construction at time 0 and `Initialize(60)` on a result
with two rows of the name `A`, the first with build 5875, the second with build
12340. -/
def duplicateRegistry : RealmList :=
  ((RealmList.ctor 0 []).Initialize 60
    (some ⟨{ sampleRow with realmbuilds := "5875" }, [{ sampleRow with id := 2 }]⟩)).getD
    (RealmList.ctor 0 [])

/-- The names of the rows of a query result are pairwise different. -/
def QueryResult.distinctNames (result : Option QueryResult) : Prop :=
  ((QueryResult.rows result).map Row.name).Nodup

instance (result : Option QueryResult) : Decidable (QueryResult.distinctNames result) := by
  unfold QueryResult.distinctNames; infer_instance

/-- The registry states of a process whose store never returns two rows of the
same name. -/
inductive ReachableDistinct : RealmList → Prop where
  | init (now : Nat) (log : List LogLine) (updateInterval : Nat)
      (result : Option QueryResult) (rl : RealmList) :
      QueryResult.distinctNames result →
      (RealmList.ctor now log).Initialize updateInterval result = some rl → ReachableDistinct rl
  | step (rl : RealmList) (now : Nat) (result : Option QueryResult) (rl' : RealmList) :
      ReachableDistinct rl → QueryResult.distinctNames result →
      rl.UpdateIfNeed now result = some rl' → ReachableDistinct rl'

/-- The era partitions index the name map: no partition holds a reference
twice, no realm is referenced by two partitions, and a reference in the
partition of era `v` points to a realm whose build set has a lowest member `b`
with `BelongsToVersion(b) = v`. -/
def RealmList.DerivedIndex (rl : RealmList) : Prop :=
  (∀ v, (rl.partition v).Nodup) ∧
  (∀ v w n, n ∈ rl.partition v → n ∈ rl.partition w → v = w) ∧
  (∀ v n, n ∈ rl.partition v → ∃ realm b t, mapFind n rl.m_realms = some realm ∧
    realm.realmbuilds = b :: t ∧ (∀ x ∈ realm.realmbuilds, b ≤ x) ∧
    v = rl.BelongsToVersion b)

/-- The registry after construction at time 0 and `Initialize(60)` on a result
with two rows of the name `A`, the first with build 12340, the second with build
5875. -/
def splitRegistry : RealmList :=
  ((RealmList.ctor 0 []).Initialize 60
    (some ⟨sampleRow, [{ sampleRow with id := 2, realmbuilds := "5875" }]⟩)).getD
    (RealmList.ctor 0 [])

/-- A table `realmlist` with an offline realm `A` (flags `0x02`) and a realm `B`
whose flag bit `0x01` is set. -/
def sampleTable : List Row :=
  [{ sampleRow with realmflags := 0x02 }, { sampleRow with name := "B", realmflags := 0x01 }]

/-- The registry after construction at time 0 and `Initialize(60)` on a result
with two rows of the name `A`, the first with build 12340, the second with the
empty builds string. -/
def staleRegistry : RealmList :=
  ((RealmList.ctor 0 []).Initialize 60
    (some ⟨sampleRow, [{ sampleRow with id := 2, realmbuilds := "" }]⟩)).getD
    (RealmList.ctor 0 [])

/-! ## Theorems -/

/-! ### Auxiliary lemmas -/

theorem FindBuildInfo.scan_cases (b : Nat) (l : List RealmBuildInfo)
    (hterm : ∃ e ∈ l, e.build = 0) :
    FindBuildInfo.scan b l = some none ∨
    ∃ e ∈ l, e.build ≠ 0 ∧ e.build = b ∧ FindBuildInfo.scan b l = some (some e) := by
  induction l with
  | nil => simp at hterm
  | cons x xs ih =>
    by_cases h0 : x.build = 0
    · left; simp [FindBuildInfo.scan, h0]
    · by_cases hb : b = x.build
      · right; exact ⟨x, by simp, h0, hb.symm, by simp [FindBuildInfo.scan, h0, hb]⟩
      · have hterm' : ∃ e ∈ xs, e.build = 0 := by
          obtain ⟨e, he, he0⟩ := hterm
          rcases List.mem_cons.mp he with rfl | he
          · exact absurd he0 h0
          · exact ⟨e, he, he0⟩
        rcases ih hterm' with h | ⟨e, he, h1, h2, h3⟩
        · left; simp [FindBuildInfo.scan, h0, hb, h]
        · right; exact ⟨e, by simp [he], h1, h2, by simp [FindBuildInfo.scan, h0, hb, h3]⟩

theorem FindBuildInfo_cases (b : Nat) :
    FindBuildInfo b = some none ∨
    ∃ e ∈ ExpectedRealmdClientBuilds, e.build ≠ 0 ∧
      (e.build = b ∨ (e.build = 18414 ∧ 18414 ≤ b)) ∧ FindBuildInfo b = some (some e) := by
  by_cases h : 18414 ≤ b
  · right
    refine ⟨⟨18414, 5, 4, 8, ' ', noHash, noHash⟩, by decide, by decide, Or.inr ⟨rfl, h⟩, ?_⟩
    simp [FindBuildInfo, ExpectedRealmdClientBuilds, h]
  · have hf : FindBuildInfo b = FindBuildInfo.scan b (ExpectedRealmdClientBuilds.drop 1) := by
      simp [FindBuildInfo, ExpectedRealmdClientBuilds, h]
    rcases FindBuildInfo.scan_cases b (ExpectedRealmdClientBuilds.drop 1) (by decide) with
      h' | ⟨e, he, h0, hb, h'⟩
    · left; rw [hf, h']
    · right
      exact ⟨e, List.mem_of_mem_drop he, h0, Or.inl hb, by rw [hf, h']⟩

theorem mapFind_mapAssign_self {α β : Type} [DecidableEq α] (k : α) (v : β) (m : List (α × β)) :
    mapFind k (mapAssign k v m) = some v := by
  induction m with
  | nil => simp [mapAssign, mapFind]
  | cons kv rest ih =>
    obtain ⟨k', v'⟩ := kv
    by_cases h : k' = k <;> simp [mapAssign, mapFind, h, ih]

theorem mapFind_mapAssign_ne {α β : Type} [DecidableEq α] (k k' : α) (v : β) (m : List (α × β))
    (hne : k' ≠ k) : mapFind k' (mapAssign k v m) = mapFind k' m := by
  induction m with
  | nil => simp [mapAssign, mapFind, Ne.symm hne]
  | cons kv rest ih =>
    obtain ⟨k₁, v₁⟩ := kv
    by_cases h : k₁ = k
    · subst h; simp [mapAssign, mapFind, Ne.symm hne]
    · by_cases h' : k₁ = k'
      · subst h'; simp [mapAssign, mapFind, h]
      · simp [mapAssign, mapFind, h, h', ih]

theorem mapFind_eq_none_iff {α β : Type} [DecidableEq α] (k : α) (m : List (α × β)) :
    mapFind k m = none ↔ k ∉ m.map Prod.fst := by
  induction m with
  | nil => simp [mapFind]
  | cons kv rest ih =>
    obtain ⟨k₁, v₁⟩ := kv
    by_cases h : k₁ = k
    · simp [mapFind, h]
    · simp [mapFind, h, ih, Ne.symm h]

theorem mapFind_mem {α β : Type} [DecidableEq α] (k : α) (v : β) (m : List (α × β))
    (h : mapFind k m = some v) : (k, v) ∈ m := by
  induction m with
  | nil => simp [mapFind] at h
  | cons kv rest ih =>
    obtain ⟨k₁, v₁⟩ := kv
    by_cases h' : k₁ = k
    · simp [mapFind, h'] at h; simp [h, h']
    · simp [mapFind, h'] at h; simp [ih h]

theorem mem_mapAssign {α β : Type} [DecidableEq α] (k : α) (v : β) (m : List (α × β))
    (kv : α × β) (h : kv ∈ mapAssign k v m) : kv = (k, v) ∨ kv ∈ m := by
  induction m with
  | nil => simpa [mapAssign] using h
  | cons kv₁ rest ih =>
    obtain ⟨k₁, v₁⟩ := kv₁
    by_cases h' : k₁ = k
    · simp [mapAssign, h'] at h
      rcases h with h | h
      · exact Or.inl h
      · exact Or.inr (by simp [h])
    · simp [mapAssign, h'] at h
      rcases h with h | h
      · exact Or.inr (by simp [h])
      · rcases ih h with h | h
        · exact Or.inl h
        · exact Or.inr (by simp [h])

theorem toUInt32_toInt32 (b : Nat) : toUInt32 (toInt32 b) = b % 2 ^ 32 := by
  unfold toUInt32 toInt32
  split_ifs with h <;> omega

theorem RealmList.BelongsToVersion_lt (rl : RealmList) (hWF : rl.WF) (b : Nat) :
    rl.BelongsToVersion b < REALM_VERSION_COUNT := by
  unfold RealmList.BelongsToVersion
  cases h : mapFind b rl.m_buildToVersion with
  | none => decide
  | some v => exact hWF.2 (b, v) (mapFind_mem b v _ h)

theorem RealmList.UpdateRealm.buildInfo_some (old : RealmBuildInfo) (fb : Nat) :
    ∃ info, RealmList.UpdateRealm.buildInfo old fb = some info ∧ info.build = fb := by
  unfold RealmList.UpdateRealm.buildInfo
  by_cases h0 : fb = 0
  · simp [h0]
  · rcases FindBuildInfo_cases fb with h | ⟨e, _, _, _, h⟩
    · simp [h0, h]
    · by_cases hb : e.build = fb <;> simp [h0, h, hb]

theorem RealmList.UpdateRealm_eq (rl : RealmList) (hWF : rl.WF) (ID : Nat) (name : String)
    (address localAddr localSubmask : ACE_INET_Addr) (port icon realmflags timezone : Nat)
    (allowedSecurityLevel popu : Nat) (builds : String) :
    ∃ info,
      RealmList.UpdateRealm.buildInfo (rl.node name).realmBuildInfo
        (RealmList.UpdateRealm.firstBuild (RealmList.UpdateRealm.insertBuilds (StrSplit builds " ")
          (rl.node name).realmbuilds)) = some info ∧
      rl.UpdateRealm ID name address localAddr localSubmask port icon realmflags timezone
        allowedSecurityLevel popu builds =
      some
        { m_realms := mapAssign name
            { ExternalAddress := address, LocalAddress := localAddr,
              LocalSubnetMask := localSubmask, name := name, icon := icon,
              realmflags := realmflags, timezone := timezone, m_ID := ID,
              allowedSecurityLevel := allowedSecurityLevel, populationLevel := popu,
              realmbuilds := RealmList.UpdateRealm.insertBuilds (StrSplit builds " ")
                (rl.node name).realmbuilds,
              realmBuildInfo := info } rl.m_realms,
          m_realmsByVersion := rl.byVersionAfter name
            (RealmList.UpdateRealm.insertBuilds (StrSplit builds " ") (rl.node name).realmbuilds),
          m_buildToVersion := rl.m_buildToVersion,
          m_UpdateInterval := rl.m_UpdateInterval,
          m_NextUpdateTime := rl.m_NextUpdateTime,
          sLog :=
            if RealmList.UpdateRealm.firstBuild (RealmList.UpdateRealm.insertBuilds
                (StrSplit builds " ") (rl.node name).realmbuilds) = 0
            then rl.sLog ++ [LogLine.noBuilds name] else rl.sLog } := by
  obtain ⟨info, hinfo, -⟩ := RealmList.UpdateRealm.buildInfo_some
    (rl.node name).realmBuildInfo
    (RealmList.UpdateRealm.firstBuild (RealmList.UpdateRealm.insertBuilds (StrSplit builds " ")
      (rl.node name).realmbuilds))
  refine ⟨info, hinfo, ?_⟩
  unfold RealmList.UpdateRealm RealmList.byVersionAfter
  simp only [hinfo]
  generalize hs : RealmList.UpdateRealm.insertBuilds (StrSplit builds " ")
      (rl.node name).realmbuilds = s
  cases s with
  | nil => simp [RealmList.UpdateRealm.firstBuild, RealmList.log]
  | cons b bs =>
    by_cases hb : toUInt16 b = 0
    · simp [RealmList.UpdateRealm.firstBuild, RealmList.log, hb]
    · have hlt := rl.BelongsToVersion_lt hWF (b % 2 ^ 32)
      have hlen : rl.BelongsToVersion (b % 2 ^ 32) < rl.m_realmsByVersion.length := by
        rw [hWF.1]; exact hlt
      simp only [RealmList.UpdateRealm.firstBuild, hb, RealmList.AddRealmToBuildList,
        toUInt32_toInt32, List.getElem?_eq_getElem hlen, RealmList.partition,
        List.getD_eq_getElem?_getD]
      simp [hb]

theorem RealmList.BelongsToVersion_of_not_key (rl : RealmList) (b : Nat)
    (hkey : b ∉ rl.m_buildToVersion.map Prod.fst) :
    rl.BelongsToVersion b = REALM_VERSION_VANILLA := by
  unfold RealmList.BelongsToVersion
  rw [(mapFind_eq_none_iff b _).mpr hkey]

theorem RealmList.WF_log (rl : RealmList) (line : LogLine) (hWF : rl.WF) : (rl.log line).WF := hWF

set_option maxRecDepth 100000 in
theorem allowedRealmFlags_mask_of_clean :
    ∀ f, f < 256 → f &&& bitNot32 allowedRealmFlags = 0 → f &&& allowedRealmFlags = f := by
  decide

set_option maxRecDepth 100000 in
theorem allowedRealmFlags_outside_iff :
    ∀ f, f < 256 → (f &&& bitNot32 allowedRealmFlags ≠ 0 ↔
      ∃ i, i < 8 ∧ f.testBit i = true ∧ allowedRealmFlags.testBit i = false) := by
  decide

theorem RealmList.UpdateRealmsRow_eq (rl : RealmList) (hWF : rl.WF) (init : Bool) (fields : Row) :
    ∃ info,
      RealmList.UpdateRealm.buildInfo (rl.node fields.name).realmBuildInfo
        (RealmList.UpdateRealm.firstBuild (RealmList.UpdateRealm.insertBuilds
          (StrSplit fields.realmbuilds " ") (rl.node fields.name).realmbuilds)) = some info ∧
      rl.UpdateRealmsRow init fields =
      some
        { m_realms := mapAssign fields.name
            { ExternalAddress := ⟨toUInt16 (fields.port % 2 ^ 32), fields.address⟩,
              LocalAddress := ⟨toUInt16 (fields.port % 2 ^ 32), fields.localAddress⟩,
              LocalSubnetMask := ⟨0, fields.localSubnetMask⟩,
              name := fields.name, icon := toUInt8 fields.icon,
              realmflags := toUInt8 fields.realmflags &&& allowedRealmFlags,
              timezone := toUInt8 fields.timezone, m_ID := fields.id % 2 ^ 32,
              allowedSecurityLevel := min (toUInt8 fields.allowedSecurityLevel) SEC_ADMINISTRATOR,
              populationLevel := fields.population,
              realmbuilds := RealmList.UpdateRealm.insertBuilds (StrSplit fields.realmbuilds " ")
                (rl.node fields.name).realmbuilds,
              realmBuildInfo := info } rl.m_realms,
          m_realmsByVersion := rl.byVersionAfter fields.name
            (RealmList.UpdateRealm.insertBuilds (StrSplit fields.realmbuilds " ")
              (rl.node fields.name).realmbuilds),
          m_buildToVersion := rl.m_buildToVersion,
          m_UpdateInterval := rl.m_UpdateInterval,
          m_NextUpdateTime := rl.m_NextUpdateTime,
          sLog := rl.sLog ++
            (if toUInt8 fields.realmflags &&& bitNot32 allowedRealmFlags ≠ 0
              then [LogLine.badFlags (fields.id % 2 ^ 32) fields.name] else []) ++
            (if RealmList.UpdateRealm.firstBuild (RealmList.UpdateRealm.insertBuilds
                (StrSplit fields.realmbuilds " ") (rl.node fields.name).realmbuilds) = 0
              then [LogLine.noBuilds fields.name] else []) ++
            (if init = true then [LogLine.added (fields.id % 2 ^ 32) fields.name] else []) } := by
  have hmask := allowedRealmFlags_mask_of_clean
  have hf : toUInt8 fields.realmflags < 256 := by
    unfold toUInt8; omega
  by_cases hbad : toUInt8 fields.realmflags &&& bitNot32 allowedRealmFlags = 0
  · obtain ⟨info, hinfo, heq⟩ := rl.UpdateRealm_eq hWF (fields.id % 2 ^ 32) fields.name
      ⟨toUInt16 (fields.port % 2 ^ 32), fields.address⟩ ⟨toUInt16 (fields.port % 2 ^ 32), fields.localAddress⟩
      ⟨0, fields.localSubnetMask⟩ (fields.port % 2 ^ 32) (toUInt8 fields.icon)
      (toUInt8 fields.realmflags) (toUInt8 fields.timezone)
      (min (toUInt8 fields.allowedSecurityLevel) SEC_ADMINISTRATOR) fields.population
      fields.realmbuilds
    refine ⟨info, hinfo, ?_⟩
    unfold RealmList.UpdateRealmsRow
    simp only [hbad, ne_eq, not_true_eq_false, if_false, ← Nat.min_def, heq,
      hmask _ hf hbad, Option.bind_eq_bind, Option.some_bind, List.append_nil]
    cases init <;>
      by_cases hfb : RealmList.UpdateRealm.firstBuild (RealmList.UpdateRealm.insertBuilds
        (StrSplit fields.realmbuilds " ") (rl.node fields.name).realmbuilds) = 0 <;>
      simp [RealmList.log, hfb]
  · obtain ⟨info, hinfo, heq⟩ := (rl.log (LogLine.badFlags (fields.id % 2 ^ 32) fields.name)).UpdateRealm_eq
      (rl.WF_log _ hWF) (fields.id % 2 ^ 32) fields.name
      ⟨toUInt16 (fields.port % 2 ^ 32), fields.address⟩ ⟨toUInt16 (fields.port % 2 ^ 32), fields.localAddress⟩
      ⟨0, fields.localSubnetMask⟩ (fields.port % 2 ^ 32) (toUInt8 fields.icon)
      (toUInt8 fields.realmflags &&& allowedRealmFlags) (toUInt8 fields.timezone)
      (min (toUInt8 fields.allowedSecurityLevel) SEC_ADMINISTRATOR) fields.population
      fields.realmbuilds
    have hnode : (rl.log (LogLine.badFlags (fields.id % 2 ^ 32) fields.name)).node fields.name =
        rl.node fields.name := rfl
    rw [hnode] at hinfo heq
    refine ⟨info, hinfo, ?_⟩
    unfold RealmList.UpdateRealmsRow
    simp only [hbad, ne_eq, not_false_eq_true, if_true, ← Nat.min_def, heq,
      Option.bind_eq_bind, Option.some_bind]
    cases init <;>
      by_cases hfb : RealmList.UpdateRealm.firstBuild (RealmList.UpdateRealm.insertBuilds
        (StrSplit fields.realmbuilds " ") (rl.node fields.name).realmbuilds) = 0 <;>
      simp [RealmList.log, RealmList.BelongsToVersion, RealmList.partition,
        RealmList.byVersionAfter, hfb]

theorem mem_setInsert (x y : Nat) (s : List Nat) : y ∈ setInsert x s ↔ y = x ∨ y ∈ s := by
  induction s with
  | nil => simp [setInsert]
  | cons a t ih =>
    unfold setInsert
    split_ifs with h1 h2
    · simp
    · subst h2; simp
    · simp only [List.mem_cons, ih]; tauto

theorem sorted_setInsert (x : Nat) (s : List Nat) (hs : s.Pairwise (· < ·)) :
    (setInsert x s).Pairwise (· < ·) := by
  induction s with
  | nil => simp [setInsert]
  | cons a t ih =>
    unfold setInsert
    rw [List.pairwise_cons] at hs
    split_ifs with h1 h2
    · refine List.pairwise_cons.mpr ⟨?_, List.pairwise_cons.mpr hs⟩
      intro y hy
      rcases List.mem_cons.mp hy with rfl | hy
      · exact h1
      · exact lt_trans h1 (hs.1 y hy)
    · exact List.pairwise_cons.mpr hs
    · refine List.pairwise_cons.mpr ⟨?_, ih hs.2⟩
      intro y hy
      rcases (mem_setInsert x y t).mp hy with rfl | hy
      · omega
      · exact hs.1 y hy

theorem foldl_setInsert_spec (l : List Nat) (s : List Nat) (hs : s.Pairwise (· < ·)) :
    (l.foldl (fun s x => setInsert x s) s).Pairwise (· < ·) ∧
    ∀ y, y ∈ l.foldl (fun s x => setInsert x s) s ↔ y ∈ s ∨ y ∈ l := by
  induction l generalizing s with
  | nil => simp [hs]
  | cons a t ih =>
    obtain ⟨h1, h2⟩ := ih (setInsert a s) (sorted_setInsert a s hs)
    refine ⟨h1, fun y => ?_⟩
    simp only [List.foldl_cons, h2, mem_setInsert, List.mem_cons]
    tauto

theorem mem_buildSet (l : List Nat) (y : Nat) : y ∈ buildSet l ↔ y ∈ l := by
  have := (foldl_setInsert_spec l [] List.Pairwise.nil).2 y
  simpa [buildSet] using this

theorem buildSet_head_le (l : List Nat) (b : Nat) (t : List Nat) (h : buildSet l = b :: t) :
    b ∈ l ∧ ∀ y ∈ l, b ≤ y := by
  have hsorted := (foldl_setInsert_spec l [] List.Pairwise.nil).1
  have hmem := mem_buildSet l
  rw [show l.foldl (fun s x => setInsert x s) [] = buildSet l from rfl, h] at hsorted
  rw [h] at hmem
  refine ⟨(hmem b).mp (by simp), fun y hy => ?_⟩
  rcases List.mem_cons.mp ((hmem y).mpr hy) with rfl | hy'
  · exact le_refl _
  · exact le_of_lt ((List.pairwise_cons.mp hsorted).1 y hy')

theorem buildSet_eq_nil_iff (l : List Nat) : buildSet l = [] ↔ l = [] := by
  constructor
  · intro h
    cases l with
    | nil => rfl
    | cons a t =>
      have := (mem_buildSet (a :: t) a).mpr (by simp)
      rw [h] at this; simp at this
  · rintro rfl; rfl

theorem buildSet_of_min (l : List Nat) (m : Nat) (hmem : m ∈ l) (hmin : ∀ x ∈ l, m ≤ x) :
    ∃ t, buildSet l = m :: t := by
  cases h : buildSet l with
  | nil => rw [(buildSet_eq_nil_iff l).mp h] at hmem; simp at hmem
  | cons b t =>
    obtain ⟨hb, hle⟩ := buildSet_head_le l b t h
    exact ⟨t, by rw [le_antisymm (hle m hmem) (hmin b hb)]⟩

theorem RealmList.UpdateRealm.insertBuilds_nil (builds : String) :
    RealmList.UpdateRealm.insertBuilds (StrSplit builds " ") [] = buildSet (parsedBuilds builds) := by
  simp [RealmList.UpdateRealm.insertBuilds, buildSet, parsedBuilds, List.foldl_map]

theorem firstBuild_buildSet_ne_zero_iff (l : List Nat) (h16 : ∀ b ∈ l, b < 2 ^ 16) :
    RealmList.UpdateRealm.firstBuild (buildSet l) ≠ 0 ↔ l ≠ [] ∧ 0 ∉ l := by
  cases h : buildSet l with
  | nil =>
    rw [(buildSet_eq_nil_iff l).mp h]; simp [RealmList.UpdateRealm.firstBuild]
  | cons b t =>
    obtain ⟨hb, hle⟩ := buildSet_head_le l b t h
    have hb16 := h16 b hb
    have hne : l ≠ [] := by rintro rfl; simp at hb
    simp only [RealmList.UpdateRealm.firstBuild, toUInt16, Nat.mod_eq_of_lt hb16, ne_eq, hne,
      not_false_eq_true, true_and]
    constructor
    · intro hb0 h0
      have := hle 0 h0
      omega
    · intro h0 hb0
      exact h0 (hb0 ▸ hb)

theorem mapAssign_fresh {α β : Type} [DecidableEq α] (k : α) (v : β) (m : List (α × β))
    (h : mapFind k m = none) : mapAssign k v m = m ++ [(k, v)] := by
  induction m with
  | nil => rfl
  | cons kv rest ih =>
    obtain ⟨k₁, v₁⟩ := kv
    by_cases h' : k₁ = k
    · simp [mapFind, h'] at h
    · simp only [mapFind, h', if_false] at h
      simp [mapAssign, h', ih h]

theorem sum_length_set_append {α : Type} (l : List (List α)) (v : Nat) (x : α) (hv : v < l.length) :
    ((l.set v (l.getD v [] ++ [x])).map List.length).sum = (l.map List.length).sum + 1 := by
  induction l generalizing v with
  | nil => simp at hv
  | cons a t ih =>
    cases v with
    | zero => simp; omega
    | succ n =>
      have := ih n (by simpa using hv)
      simp only [List.set_cons_succ, List.map_cons, List.sum_cons, List.getD_cons_succ, this]
      omega

theorem getD_set_append_mem {α : Type} (l : List (List α)) (v w : Nat) (x n : α)
    (hv : v < l.length) :
    n ∈ (l.set v (l.getD v [] ++ [x])).getD w [] ↔ n ∈ l.getD w [] ∨ (w = v ∧ n = x) := by
  by_cases hwv : w = v
  · subst hwv
    simp [List.getD_eq_getElem?_getD, List.getElem?_set, hv]
  · simp [List.getD_eq_getElem?_getD, List.getElem?_set, hwv, Ne.symm hwv]

theorem RealmList.node_fresh (rl : RealmList) (name : String)
    (hfresh : mapFind name rl.m_realms = none) : rl.node name = Realm.fresh := by
  simp [RealmList.node, hfresh]

theorem RealmList.not_mem_partition_of_fresh (rl : RealmList) (hrefs : rl.RefsValid)
    (name : String) (hfresh : mapFind name rl.m_realms = none) (v : Nat) :
    name ∉ rl.partition v := by
  intro hmem
  unfold RealmList.partition at hmem
  rw [List.getD_eq_getElem?_getD] at hmem
  cases hv : rl.m_realmsByVersion[v]? with
  | none => simp [hv] at hmem
  | some refs =>
    simp only [hv, Option.getD_some] at hmem
    exact hrefs refs (List.getElem?_mem hv) name hmem hfresh

theorem RealmList.byVersionAfter_of_zero (rl : RealmList) (name : String) (s : List Nat)
    (h0 : RealmList.UpdateRealm.firstBuild s = 0) :
    rl.byVersionAfter name s = rl.m_realmsByVersion := by
  cases s with
  | nil => rfl
  | cons b t =>
    have hb : toUInt16 b = 0 := h0
    simp [RealmList.byVersionAfter, hb]

theorem RealmList.byVersionAfter_of_ne_zero (rl : RealmList) (name : String) (b : Nat)
    (t : List Nat) (h0 : RealmList.UpdateRealm.firstBuild (b :: t) ≠ 0) :
    rl.byVersionAfter name (b :: t) =
      rl.m_realmsByVersion.set (rl.BelongsToVersion (b % 2 ^ 32))
        (rl.m_realmsByVersion.getD (rl.BelongsToVersion (b % 2 ^ 32)) [] ++ [name]) := by
  have hb : ¬ toUInt16 b = 0 := h0
  simp only [RealmList.byVersionAfter, hb, if_false, RealmList.partition]

theorem RealmList.byVersionAfter_length (rl : RealmList) (name : String) (s : List Nat) :
    (rl.byVersionAfter name s).length = rl.m_realmsByVersion.length := by
  by_cases h0 : RealmList.UpdateRealm.firstBuild s = 0
  · rw [rl.byVersionAfter_of_zero name s h0]
  · cases s with
    | nil => exact absurd rfl h0
    | cons b t => rw [rl.byVersionAfter_of_ne_zero name b t h0, List.length_set]

theorem RealmList.byVersionAfter_sum (rl : RealmList) (hWF : rl.WF) (name : String)
    (s : List Nat) :
    ((rl.byVersionAfter name s).map List.length).sum =
      rl.totalRefs + (if RealmList.UpdateRealm.firstBuild s = 0 then 0 else 1) := by
  by_cases h0 : RealmList.UpdateRealm.firstBuild s = 0
  · rw [rl.byVersionAfter_of_zero name s h0]; simp [h0, RealmList.totalRefs]
  · cases s with
    | nil => exact absurd rfl h0
    | cons b t =>
      have hlen : rl.BelongsToVersion (b % 2 ^ 32) < rl.m_realmsByVersion.length := by
        rw [hWF.1]; exact rl.BelongsToVersion_lt hWF _
      rw [rl.byVersionAfter_of_ne_zero name b t h0, sum_length_set_append _ _ _ hlen]
      simp [h0, RealmList.totalRefs]

theorem RealmList.byVersionAfter_mem (rl : RealmList) (hWF : rl.WF) (name : String)
    (s : List Nat) (n : String) (v : Nat) :
    n ∈ (rl.byVersionAfter name s).getD v [] ↔
      n ∈ rl.partition v ∨ (RealmList.UpdateRealm.firstBuild s ≠ 0 ∧ n = name ∧
        v = rl.BelongsToVersion (s.headD 0 % 2 ^ 32)) := by
  by_cases h0 : RealmList.UpdateRealm.firstBuild s = 0
  · rw [rl.byVersionAfter_of_zero name s h0]; simp [h0, RealmList.partition]
  · cases s with
    | nil => exact absurd rfl h0
    | cons b t =>
      have hlen : rl.BelongsToVersion (b % 2 ^ 32) < rl.m_realmsByVersion.length := by
        rw [hWF.1]; exact rl.BelongsToVersion_lt hWF _
      rw [rl.byVersionAfter_of_ne_zero name b t h0, getD_set_append_mem _ _ _ _ _ hlen]
      simp only [RealmList.partition, ne_eq, h0, not_false_eq_true, List.headD_cons, true_and]
      tauto

theorem RealmList.UpdateRealmsRow_preserves (rl : RealmList) (hWF : rl.WF) (init : Bool)
    (fields : Row) :
    ∃ rl', rl.UpdateRealmsRow init fields = some rl' ∧ rl'.WF ∧
      rl'.m_buildToVersion = rl.m_buildToVersion ∧
      rl'.m_UpdateInterval = rl.m_UpdateInterval ∧
      rl'.m_NextUpdateTime = rl.m_NextUpdateTime ∧
      (rl.RefsValid → rl'.RefsValid) := by
  obtain ⟨info, -, heq⟩ := rl.UpdateRealmsRow_eq hWF init fields
  refine ⟨_, heq, ⟨?_, hWF.2⟩, rfl, rfl, rfl, ?_⟩
  · show (rl.byVersionAfter _ _).length = _
    rw [rl.byVersionAfter_length, hWF.1]
  · intro hrefs refs hrefsmem n hn
    obtain ⟨v, hv⟩ := List.getElem?_of_mem hrefsmem
    have hn' : n ∈ (rl.byVersionAfter fields.name (RealmList.UpdateRealm.insertBuilds
        (StrSplit fields.realmbuilds " ") (rl.node fields.name).realmbuilds)).getD v [] := by
      rw [List.getD_eq_getElem?_getD]
      simp only [] at hv
      rw [hv]; exact hn
    show mapFind n (mapAssign fields.name _ rl.m_realms) ≠ none
    by_cases hname : n = fields.name
    · rw [hname, mapFind_mapAssign_self]; simp
    · rw [mapFind_mapAssign_ne _ _ _ _ hname]
      rcases (rl.byVersionAfter_mem hWF _ _ n v).mp hn' with h | ⟨-, h, -⟩
      · unfold RealmList.partition at h
        rw [List.getD_eq_getElem?_getD] at h
        cases hv' : rl.m_realmsByVersion[v]? with
        | none => simp [hv'] at h
        | some refs' =>
          simp only [hv', Option.getD_some] at h
          exact hrefs refs' (List.getElem?_mem hv') n h
      · exact absurd h hname

theorem RealmList.UpdateRealms.loop_eq (init : Bool) (rs : List Row) :
    ∀ (rl : RealmList) (r : Row), RealmList.UpdateRealms.loop init rl r rs =
      (r :: rs).foldlM (fun rl f => rl.UpdateRealmsRow init f) rl := by
  induction rs with
  | nil =>
    intro rl r
    simp [RealmList.UpdateRealms.loop]
  | cons a t ih =>
    intro rl r
    rw [RealmList.UpdateRealms.loop, List.foldlM_cons]
    cases h : rl.UpdateRealmsRow init r with
    | none => rfl
    | some rl' => simp [ih]

theorem RealmList.UpdateRealms_eq (rl : RealmList) (init : Bool) (rows : List Row) :
    rl.UpdateRealms init (QueryResult.ofRows rows) =
      rows.foldlM (fun rl f => rl.UpdateRealmsRow init f) (rl.log LogLine.updating) := by
  cases rows with
  | nil => rfl
  | cons r rs => simp [RealmList.UpdateRealms, QueryResult.ofRows, RealmList.UpdateRealms.loop_eq]

theorem RealmList.loadRows_preserves (init : Bool) (rows : List Row) :
    ∀ (rl : RealmList), rl.WF →
    ∃ rl', rows.foldlM (fun rl f => rl.UpdateRealmsRow init f) rl = some rl' ∧ rl'.WF ∧
      rl'.m_buildToVersion = rl.m_buildToVersion ∧
      rl'.m_UpdateInterval = rl.m_UpdateInterval ∧
      rl'.m_NextUpdateTime = rl.m_NextUpdateTime ∧
      (rl.RefsValid → rl'.RefsValid) := by
  induction rows with
  | nil => intro rl hWF; exact ⟨rl, rfl, hWF, rfl, rfl, rfl, id⟩
  | cons r rs ih =>
    intro rl hWF
    obtain ⟨rl₁, h₁, hWF₁, hb₁, hi₁, ht₁, hr₁⟩ := rl.UpdateRealmsRow_preserves hWF init r
    obtain ⟨rl₂, h₂, hWF₂, hb₂, hi₂, ht₂, hr₂⟩ := ih rl₁ hWF₁
    refine ⟨rl₂, ?_, hWF₂, hb₂.trans hb₁, hi₂.trans hi₁, ht₂.trans ht₁, fun h => hr₂ (hr₁ h)⟩
    rw [List.foldlM_cons, h₁]; exact h₂

theorem RealmList.UpdateRealms_preserves (rl : RealmList) (hWF : rl.WF) (init : Bool)
    (result : Option QueryResult) :
    ∃ rl', rl.UpdateRealms init result = some rl' ∧ rl'.WF ∧
      rl'.m_buildToVersion = rl.m_buildToVersion ∧
      rl'.m_UpdateInterval = rl.m_UpdateInterval ∧
      rl'.m_NextUpdateTime = rl.m_NextUpdateTime ∧
      (rl.RefsValid → rl'.RefsValid) := by
  cases result with
  | none => exact ⟨rl.log LogLine.updating, rfl, hWF, rfl, rfl, rfl, id⟩
  | some q =>
    have hq : some q = QueryResult.ofRows (q.current :: q.next) := rfl
    rw [hq, rl.UpdateRealms_eq]
    exact RealmList.loadRows_preserves init _ (rl.log LogLine.updating) hWF

theorem RealmList.clearRealmsByVersion_eq (l : List (List String))
    (hlen : l.length = REALM_VERSION_COUNT) :
    RealmList.clearRealmsByVersion l = some (List.replicate REALM_VERSION_COUNT []) := by
  match l, hlen with
  | [a, b, c, d, e, f, g, h, i], _ => rfl

theorem RealmList.WF_InitBuildToVersion (rl : RealmList) (hWF : rl.WF) :
    rl.InitBuildToVersion.WF := by
  refine ⟨hWF.1, ?_⟩
  have step : ∀ (m : List (Nat × RealmVersion)) (k v : Nat), v < REALM_VERSION_COUNT →
      (∀ kv ∈ m, kv.2 < REALM_VERSION_COUNT) →
      ∀ kv ∈ mapAssign k v m, kv.2 < REALM_VERSION_COUNT := by
    intro m k v hv hm kv hkv
    rcases mem_mapAssign k v m kv hkv with rfl | h
    · exact hv
    · exact hm kv h
  unfold RealmList.InitBuildToVersion
  simp only []
  repeat' (first | exact hWF.2 | (apply step; decide))

theorem RealmList.UpdateIfNeed_of_due (rl : RealmList)
    (hlen : rl.m_realmsByVersion.length = REALM_VERSION_COUNT) (now : Nat)
    (result : Option QueryResult)
    (hc : ¬(rl.m_UpdateInterval = 0 ∨ rl.m_NextUpdateTime > now)) :
    rl.UpdateIfNeed now result =
      RealmList.UpdateRealms { rl with
        m_NextUpdateTime := now + rl.m_UpdateInterval, m_realms := [],
        m_realmsByVersion := List.replicate REALM_VERSION_COUNT [] } false result := by
  unfold RealmList.UpdateIfNeed
  simp only [hc, if_false, RealmList.clearRealmsByVersion_eq _ hlen, Option.bind_eq_bind,
    Option.some_bind]

theorem RealmList.UpdateIfNeed_of_not_due (rl : RealmList) (now : Nat)
    (result : Option QueryResult)
    (hc : rl.m_UpdateInterval = 0 ∨ rl.m_NextUpdateTime > now) :
    rl.UpdateIfNeed now result = some rl := by
  unfold RealmList.UpdateIfNeed
  simp only [hc, if_true]

theorem Reachable.wf {rl : RealmList} (h : Reachable rl) : rl.WF ∧ rl.RefsValid := by
  induction h with
  | init now log updateInterval result rl hinit =>
    have hWF0 : (RealmList.InitBuildToVersion
        { RealmList.ctor now log with m_UpdateInterval := updateInterval }).WF :=
      RealmList.WF_InitBuildToVersion _ ⟨rfl, by simp [RealmList.ctor]⟩
    obtain ⟨rl', h', hWF', -, -, -, hr'⟩ := RealmList.UpdateRealms_preserves _ hWF0 true result
    unfold RealmList.Initialize at hinit
    simp only [] at hinit
    rw [h'] at hinit
    cases hinit
    refine ⟨hWF', hr' ?_⟩
    intro refs hrefs n hn
    simp [RealmList.InitBuildToVersion, RealmList.ctor, REALM_VERSION_COUNT] at hrefs
    subst hrefs
    simp at hn
  | step rl now result rl' _ hstep ih =>
    by_cases hc : rl.m_UpdateInterval = 0 ∨ rl.m_NextUpdateTime > now
    · rw [rl.UpdateIfNeed_of_not_due now result hc] at hstep
      cases hstep; exact ih
    · rw [rl.UpdateIfNeed_of_due ih.1.1 now result hc] at hstep
      have hWF1 : RealmList.WF { rl with
          m_NextUpdateTime := now + rl.m_UpdateInterval, m_realms := [],
          m_realmsByVersion := List.replicate REALM_VERSION_COUNT [] } :=
        ⟨by simp [REALM_VERSION_COUNT], ih.1.2⟩
      obtain ⟨rl'', h'', hWF'', -, -, -, hr''⟩ :=
        RealmList.UpdateRealms_preserves _ hWF1 false result
      rw [h''] at hstep
      cases hstep
      refine ⟨hWF'', hr'' ?_⟩
      intro refs hrefs n hn
      simp [REALM_VERSION_COUNT] at hrefs
      subst hrefs
      simp at hn

theorem RealmList.UpdateRealmsRow_fresh (rl : RealmList) (hWF : rl.WF) (init : Bool)
    (fields : Row) (hfresh : mapFind fields.name rl.m_realms = none) :
    ∃ rl' realm, rl.UpdateRealmsRow init fields = some rl' ∧
      rl'.m_realms = rl.m_realms ++ [(fields.name, realm)] ∧
      realm.realmbuilds = buildSet (parsedBuilds fields.realmbuilds) ∧
      rl'.totalRefs = rl.totalRefs +
        (if RealmList.UpdateRealm.firstBuild (buildSet (parsedBuilds fields.realmbuilds)) = 0
          then 0 else 1) ∧
      ∀ n v, n ∈ rl'.partition v ↔ n ∈ rl.partition v ∨
        (RealmList.UpdateRealm.firstBuild (buildSet (parsedBuilds fields.realmbuilds)) ≠ 0 ∧
          n = fields.name ∧
          v = rl.BelongsToVersion ((buildSet (parsedBuilds fields.realmbuilds)).headD 0 % 2 ^ 32)) := by
  obtain ⟨info, -, heq⟩ := rl.UpdateRealmsRow_eq hWF init fields
  rw [rl.node_fresh fields.name hfresh] at heq
  simp only [Realm.fresh, RealmList.UpdateRealm.insertBuilds_nil] at heq
  rw [mapAssign_fresh _ _ _ hfresh] at heq
  refine ⟨_, _, heq, rfl, rfl, rl.byVersionAfter_sum hWF _ _, fun n v => ?_⟩
  exact rl.byVersionAfter_mem hWF _ _ n v

theorem mapFind_append_singleton {α β : Type} [DecidableEq α] (k k' : α) (v : β)
    (m : List (α × β)) (hne : k' ≠ k) (h : mapFind k' m = none) :
    mapFind k' (m ++ [(k, v)]) = none := by
  rw [mapFind_eq_none_iff] at h ⊢
  simpa [Ne.symm hne, hne] using h

theorem RealmList.loadRows_fresh (init : Bool) (rows : List Row) :
    ∀ (rl : RealmList), rl.WF →
    (∀ r ∈ rows, mapFind r.name rl.m_realms = none) →
    (rows.map Row.name).Nodup →
    ∃ rl', rows.foldlM (fun rl f => rl.UpdateRealmsRow init f) rl = some rl' ∧
      rl'.m_realms.map (fun kv => (kv.1, kv.2.realmbuilds)) =
        rl.m_realms.map (fun kv => (kv.1, kv.2.realmbuilds)) ++
          rows.map (fun r => (r.name, buildSet (parsedBuilds r.realmbuilds))) ∧
      rl'.totalRefs = rl.totalRefs + (rows.filter (fun r => decide
        (RealmList.UpdateRealm.firstBuild (buildSet (parsedBuilds r.realmbuilds)) ≠ 0))).length ∧
      ∀ n, (∃ v, n ∈ rl'.partition v) ↔ (∃ v, n ∈ rl.partition v) ∨
        ∃ r ∈ rows, r.name = n ∧
          RealmList.UpdateRealm.firstBuild (buildSet (parsedBuilds r.realmbuilds)) ≠ 0 := by
  induction rows with
  | nil =>
    intro rl _ _ _
    exact ⟨rl, rfl, by simp, by simp, by simp⟩
  | cons r rs ih =>
    intro rl hWF hfresh hnodup
    obtain ⟨rl₁, realm, h₁, hmap₁, hb₁, htot₁, hmem₁⟩ :=
      rl.UpdateRealmsRow_fresh hWF init r (hfresh r (by simp))
    obtain ⟨rl₁', h₁', hWF₁, -, -, -, -⟩ := rl.UpdateRealmsRow_preserves hWF init r
    rw [h₁] at h₁'
    cases h₁'
    rw [List.map_cons, List.nodup_cons] at hnodup
    have hfresh₁ : ∀ r' ∈ rs, mapFind r'.name rl₁.m_realms = none := by
      intro r' hr'
      rw [hmap₁]
      refine mapFind_append_singleton _ _ _ _ ?_ (hfresh r' (by simp [hr']))
      intro heq
      exact hnodup.1 (heq ▸ List.mem_map_of_mem Row.name hr')
    obtain ⟨rl₂, h₂, hmap₂, htot₂, hmem₂⟩ := ih rl₁ hWF₁ hfresh₁ hnodup.2
    refine ⟨rl₂, ?_, ?_, ?_, ?_⟩
    · rw [List.foldlM_cons, h₁]; exact h₂
    · rw [hmap₂, hmap₁]; simp [hb₁]
    · rw [htot₂, htot₁, List.filter_cons]
      by_cases h0 : RealmList.UpdateRealm.firstBuild (buildSet (parsedBuilds r.realmbuilds)) = 0
      · simp [h0]
      · simp [h0]; omega
    · intro n
      rw [hmem₂]
      constructor
      · rintro (⟨v, hv⟩ | ⟨r', hr', hn, hl⟩)
        · rcases (hmem₁ n v).mp hv with h | ⟨hl, hn, -⟩
          · exact Or.inl ⟨v, h⟩
          · exact Or.inr ⟨r, by simp, hn.symm, hl⟩
        · exact Or.inr ⟨r', by simp [hr'], hn, hl⟩
      · rintro (⟨v, hv⟩ | ⟨r', hr', hn, hl⟩)
        · exact Or.inl ⟨v, (hmem₁ n v).mpr (Or.inl hv)⟩
        · rcases List.mem_cons.mp hr' with rfl | hr'
          · exact Or.inl ⟨_, (hmem₁ n _).mpr (Or.inr ⟨hl, hn.symm, rfl⟩)⟩
          · exact Or.inr ⟨r', hr', hn, hl⟩

theorem sum_map_eq_sum_range_getD {α : Type} (f : α → Nat) (d : α) (l : List α) :
    (l.map f).sum = ((List.range l.length).map (fun v => f (l.getD v d))).sum := by
  induction l with
  | nil => simp
  | cons a t ih =>
    rw [List.length_cons, List.range_succ_eq_map, List.map_cons, List.map_cons, List.map_map,
      List.sum_cons, List.sum_cons, ih]
    simp [Function.comp_def]

theorem RealmList.totalRefs_eq (rl : RealmList) (hWF : rl.WF) :
    rl.totalRefs =
      ((List.range REALM_VERSION_COUNT).map (fun v => (rl.partition v).length)).sum := by
  unfold RealmList.totalRefs RealmList.partition
  rw [sum_map_eq_sum_range_getD List.length [] rl.m_realmsByVersion, hWF.1]

theorem RealmList.NumRealmsForBuild_eq (rl : RealmList) (hWF : rl.WF) (b : Nat) :
    rl.NumRealmsForBuild b = some (rl.partition (rl.BelongsToVersion b)).length := by
  have hlen : rl.BelongsToVersion b < rl.m_realmsByVersion.length := by
    rw [hWF.1]; exact rl.BelongsToVersion_lt hWF b
  unfold RealmList.NumRealmsForBuild RealmList.partition
  rw [List.getD_eq_getElem?_getD, List.getElem?_eq_getElem hlen]; rfl

theorem RealmList.UpdateRealmsRow_reloadCount (rl : RealmList) (hWF : rl.WF) (init : Bool)
    (fields : Row) :
    ∃ rl', rl.UpdateRealmsRow init fields = some rl' ∧
      reloadCount rl'.sLog = reloadCount rl.sLog := by
  obtain ⟨info, -, heq⟩ := rl.UpdateRealmsRow_eq hWF init fields
  refine ⟨_, heq, ?_⟩
  simp only [reloadCount, List.count_append]
  split_ifs <;> simp [List.count_cons]

theorem RealmList.loadRows_reloadCount (init : Bool) (rows : List Row) :
    ∀ (rl : RealmList), rl.WF →
    ∃ rl', rows.foldlM (fun rl f => rl.UpdateRealmsRow init f) rl = some rl' ∧
      reloadCount rl'.sLog = reloadCount rl.sLog := by
  induction rows with
  | nil => intro rl _; exact ⟨rl, rfl, rfl⟩
  | cons r rs ih =>
    intro rl hWF
    obtain ⟨rl₁, h₁, hc₁⟩ := rl.UpdateRealmsRow_reloadCount hWF init r
    obtain ⟨rl₁', h₁', hWF₁, -, -, -, -⟩ := rl.UpdateRealmsRow_preserves hWF init r
    rw [h₁] at h₁'
    cases h₁'
    obtain ⟨rl₂, h₂, hc₂⟩ := ih rl₁ hWF₁
    refine ⟨rl₂, ?_, hc₂.trans hc₁⟩
    rw [List.foldlM_cons, h₁]; exact h₂

theorem QueryResult.ofRows_rows (result : Option QueryResult) :
    QueryResult.ofRows (QueryResult.rows result) = result := by
  cases result with
  | none => rfl
  | some q => rfl

theorem RealmList.UpdateRealms_reloadCount (rl : RealmList) (hWF : rl.WF) (init : Bool)
    (result : Option QueryResult) :
    ∃ rl', rl.UpdateRealms init result = some rl' ∧
      reloadCount rl'.sLog = reloadCount rl.sLog + 1 := by
  rw [← QueryResult.ofRows_rows result, rl.UpdateRealms_eq]
  obtain ⟨rl', h, hc⟩ := RealmList.loadRows_reloadCount init (QueryResult.rows result)
    (rl.log LogLine.updating) hWF
  refine ⟨rl', h, ?_⟩
  rw [hc]
  simp [reloadCount, RealmList.log, List.count_append]

theorem RealmList.UpdateIfNeed_reloads (rl : RealmList) (hWF : rl.WF) (now : Nat)
    (result : Option QueryResult) (hdue : rl.reloads now) :
    ∃ rl', rl.UpdateIfNeed now result = some rl' ∧ rl'.WF ∧
      rl'.m_NextUpdateTime = now + rl.m_UpdateInterval ∧
      rl'.m_UpdateInterval = rl.m_UpdateInterval ∧
      rl'.m_buildToVersion = rl.m_buildToVersion ∧
      reloadCount rl'.sLog = reloadCount rl.sLog + 1 := by
  rw [rl.UpdateIfNeed_of_due hWF.1 now result hdue]
  have hWF1 : RealmList.WF { rl with
      m_NextUpdateTime := now + rl.m_UpdateInterval, m_realms := [],
      m_realmsByVersion := List.replicate REALM_VERSION_COUNT [] } :=
    ⟨by simp [REALM_VERSION_COUNT], hWF.2⟩
  obtain ⟨rl', h', hWF', hb, hi, ht, -⟩ := RealmList.UpdateRealms_preserves _ hWF1 false result
  obtain ⟨rl'', h'', hc⟩ := RealmList.UpdateRealms_reloadCount _ hWF1 false result
  rw [h'] at h''
  cases h''
  exact ⟨rl', h', hWF', ht, hi, hb, hc⟩

theorem RealmList.UpdateRealmsRow_congr (rl₁ rl₂ : RealmList) (hWF₁ : rl₁.WF)
    (hrealms : rl₁.m_realms = rl₂.m_realms)
    (hparts : rl₁.m_realmsByVersion = rl₂.m_realmsByVersion)
    (hmap : rl₁.m_buildToVersion = rl₂.m_buildToVersion)
    (init₁ init₂ : Bool) (fields : Row) :
    ∃ r₁ r₂, rl₁.UpdateRealmsRow init₁ fields = some r₁ ∧
      rl₂.UpdateRealmsRow init₂ fields = some r₂ ∧ r₁.WF ∧
      r₁.m_realms = r₂.m_realms ∧ r₁.m_realmsByVersion = r₂.m_realmsByVersion ∧
      r₁.m_buildToVersion = r₂.m_buildToVersion := by
  have hWF₂ : rl₂.WF := ⟨hparts ▸ hWF₁.1, hmap ▸ hWF₁.2⟩
  obtain ⟨info₁, hinfo₁, heq₁⟩ := rl₁.UpdateRealmsRow_eq hWF₁ init₁ fields
  obtain ⟨info₂, hinfo₂, heq₂⟩ := rl₂.UpdateRealmsRow_eq hWF₂ init₂ fields
  obtain ⟨r₁', h₁', hWF₁', -, -, -, -⟩ := rl₁.UpdateRealmsRow_preserves hWF₁ init₁ fields
  have hnode : rl₁.node fields.name = rl₂.node fields.name := by
    simp only [RealmList.node, hrealms]
  have hby : ∀ s, rl₁.byVersionAfter fields.name s = rl₂.byVersionAfter fields.name s := by
    intro s
    simp only [RealmList.byVersionAfter, RealmList.BelongsToVersion, RealmList.partition,
      hparts, hmap]
  rw [hnode] at hinfo₁
  rw [hinfo₁] at hinfo₂
  cases hinfo₂
  rw [heq₁] at h₁'
  cases h₁'
  refine ⟨_, _, heq₁, heq₂, hWF₁', ?_, ?_, hmap⟩
  · simp only [hnode, hrealms]
  · simp only [hnode, hby]

theorem RealmList.loadRows_congr (rows : List Row) (init₁ init₂ : Bool) :
    ∀ (rl₁ rl₂ : RealmList), rl₁.WF → rl₁.m_realms = rl₂.m_realms →
      rl₁.m_realmsByVersion = rl₂.m_realmsByVersion →
      rl₁.m_buildToVersion = rl₂.m_buildToVersion →
    ∃ r₁ r₂, rows.foldlM (fun rl f => rl.UpdateRealmsRow init₁ f) rl₁ = some r₁ ∧
      rows.foldlM (fun rl f => rl.UpdateRealmsRow init₂ f) rl₂ = some r₂ ∧
      r₁.m_realms = r₂.m_realms ∧ r₁.m_realmsByVersion = r₂.m_realmsByVersion := by
  induction rows with
  | nil => intro rl₁ rl₂ _ h₁ h₂ _; exact ⟨rl₁, rl₂, rfl, rfl, h₁, h₂⟩
  | cons r rs ih =>
    intro rl₁ rl₂ hWF h₁ h₂ h₃
    obtain ⟨a₁, a₂, ha₁, ha₂, hWFa, e₁, e₂, e₃⟩ :=
      rl₁.UpdateRealmsRow_congr rl₂ hWF h₁ h₂ h₃ init₁ init₂ r
    obtain ⟨b₁, b₂, hb₁, hb₂, f₁, f₂⟩ := ih a₁ a₂ hWFa e₁ e₂ e₃
    refine ⟨b₁, b₂, ?_, ?_, f₁, f₂⟩
    · rw [List.foldlM_cons, ha₁]; exact hb₁
    · rw [List.foldlM_cons, ha₂]; exact hb₂

theorem RealmList.UpdateRealms_congr (rl₁ rl₂ : RealmList) (hWF₁ : rl₁.WF)
    (hrealms : rl₁.m_realms = rl₂.m_realms)
    (hparts : rl₁.m_realmsByVersion = rl₂.m_realmsByVersion)
    (hmap : rl₁.m_buildToVersion = rl₂.m_buildToVersion)
    (init₁ init₂ : Bool) (result : Option QueryResult) :
    ∃ r₁ r₂, rl₁.UpdateRealms init₁ result = some r₁ ∧
      rl₂.UpdateRealms init₂ result = some r₂ ∧
      r₁.m_realms = r₂.m_realms ∧ r₁.m_realmsByVersion = r₂.m_realmsByVersion := by
  rw [← QueryResult.ofRows_rows result, rl₁.UpdateRealms_eq, rl₂.UpdateRealms_eq]
  exact RealmList.loadRows_congr _ init₁ init₂ (rl₁.log LogLine.updating)
    (rl₂.log LogLine.updating) hWF₁ hrealms hparts hmap

theorem RealmList.UpdateRealmsRow_realms (rl : RealmList) (hWF : rl.WF) (init : Bool)
    (fields : Row) :
    ∃ rl', rl.UpdateRealmsRow init fields = some rl' ∧
      ∀ kv ∈ rl'.m_realms, kv ∈ rl.m_realms ∨
        (kv.1 = fields.name ∧
          kv.2.realmflags = toUInt8 fields.realmflags &&& allowedRealmFlags) := by
  obtain ⟨info, -, heq⟩ := rl.UpdateRealmsRow_eq hWF init fields
  refine ⟨_, heq, fun kv hkv => ?_⟩
  rcases mem_mapAssign _ _ _ kv hkv with h | h
  · right; rw [h]; exact ⟨rfl, rfl⟩
  · exact Or.inl h

theorem RealmList.loadRows_realms (init : Bool) (rows : List Row) :
    ∀ (rl : RealmList), rl.WF →
    ∃ rl', rows.foldlM (fun rl f => rl.UpdateRealmsRow init f) rl = some rl' ∧
      ∀ kv ∈ rl'.m_realms, kv ∈ rl.m_realms ∨
        ∃ r ∈ rows, kv.1 = r.name ∧
          kv.2.realmflags = toUInt8 r.realmflags &&& allowedRealmFlags := by
  induction rows with
  | nil => intro rl _; exact ⟨rl, rfl, fun kv h => Or.inl h⟩
  | cons r rs ih =>
    intro rl hWF
    obtain ⟨rl₁, h₁, hm₁⟩ := rl.UpdateRealmsRow_realms hWF init r
    obtain ⟨rl₁', h₁', hWF₁, -, -, -, -⟩ := rl.UpdateRealmsRow_preserves hWF init r
    rw [h₁] at h₁'
    cases h₁'
    obtain ⟨rl₂, h₂, hm₂⟩ := ih rl₁ hWF₁
    refine ⟨rl₂, ?_, fun kv hkv => ?_⟩
    · rw [List.foldlM_cons, h₁]; exact h₂
    · rcases hm₂ kv hkv with h | ⟨r', hr', h⟩
      · rcases hm₁ kv h with h | h
        · exact Or.inl h
        · exact Or.inr ⟨r, by simp, h⟩
      · exact Or.inr ⟨r', by simp [hr'], h⟩

theorem LoginDatabase.mem_Query (realmlist : List Row) (r : Row) :
    r ∈ QueryResult.rows (LoginDatabase.Query realmlist) ↔
      r ∈ realmlist ∧ r.realmflags &&& 1 = 0 := by
  have hrows : ∀ l : List Row, QueryResult.rows (QueryResult.ofRows l) = l := by
    intro l; cases l <;> rfl
  unfold LoginDatabase.Query
  rw [hrows, List.mem_insertionSort, List.mem_filter]
  simp

set_option maxRecDepth 100000 in
theorem allowedRealmFlags_keeps_offline :
    ∀ f, f < 256 → (f &&& allowedRealmFlags) &&& REALM_FLAG_OFFLINE = f &&& REALM_FLAG_OFFLINE ∧
      (f &&& allowedRealmFlags) &&& 1 = 0 := by
  decide

theorem getD_set_append {α : Type} (l : List (List α)) (v w : Nat) (x : α)
    (hv : v < l.length) :
    (l.set v (l.getD v [] ++ [x])).getD w [] = l.getD w [] ++ (if w = v then [x] else []) := by
  by_cases hwv : w = v
  · subst hwv
    simp [List.getD_eq_getElem?_getD, List.getElem?_set, hv]
  · simp [List.getD_eq_getElem?_getD, List.getElem?_set, hwv, Ne.symm hwv]

theorem RealmList.byVersionAfter_getD (rl : RealmList) (hWF : rl.WF) (name : String)
    (s : List Nat) (v : Nat) :
    (rl.byVersionAfter name s).getD v [] = rl.partition v ++
      (if RealmList.UpdateRealm.firstBuild s ≠ 0 ∧ rl.BelongsToVersion (s.headD 0 % 2 ^ 32) = v
        then [name] else []) := by
  by_cases h0 : RealmList.UpdateRealm.firstBuild s = 0
  · rw [rl.byVersionAfter_of_zero name s h0]; simp [h0, RealmList.partition]
  · cases s with
    | nil => exact absurd rfl h0
    | cons b t =>
      have hlen : rl.BelongsToVersion (b % 2 ^ 32) < rl.m_realmsByVersion.length := by
        rw [hWF.1]; exact rl.BelongsToVersion_lt hWF _
      rw [rl.byVersionAfter_of_ne_zero name b t h0, getD_set_append _ _ _ _ hlen]
      simp only [RealmList.partition, ne_eq, h0, not_false_eq_true, List.headD_cons, true_and]
      generalize rl.BelongsToVersion (b % 2 ^ 32) = e
      by_cases hv : v = e
      · simp [hv]
      · simp [hv, Ne.symm hv]

theorem parsedBuilds_lt (builds : String) : ∀ b ∈ parsedBuilds builds, b < 2 ^ 32 := by
  intro b hb
  simp only [parsedBuilds, List.mem_map] at hb
  obtain ⟨t, -, rfl⟩ := hb
  unfold toUInt32
  omega

theorem RealmList.loadRows_index (init : Bool) (rows : List Row) :
    ∀ (rl : RealmList), rl.WF →
    (∀ r ∈ rows, mapFind r.name rl.m_realms = none) →
    (rows.map Row.name).Nodup →
    ∃ rl', rows.foldlM (fun rl f => rl.UpdateRealmsRow init f) rl = some rl' ∧
      rl'.m_buildToVersion = rl.m_buildToVersion ∧
      (∀ r ∈ rows, ∃ realm, mapFind r.name rl'.m_realms = some realm ∧
        realm.realmbuilds = buildSet (parsedBuilds r.realmbuilds)) ∧
      (∀ n, n ∉ rows.map Row.name → mapFind n rl'.m_realms = mapFind n rl.m_realms) ∧
      (∀ v, rl'.partition v = rl.partition v ++
        (rows.filter (fun r => decide
          (RealmList.UpdateRealm.firstBuild (buildSet (parsedBuilds r.realmbuilds)) ≠ 0 ∧
            rl.BelongsToVersion ((buildSet (parsedBuilds r.realmbuilds)).headD 0 % 2 ^ 32) = v))).map
          Row.name) := by
  induction rows with
  | nil =>
    intro rl _ _ _
    exact ⟨rl, rfl, rfl, by simp, fun _ _ => rfl, by simp⟩
  | cons r rs ih =>
    intro rl hWF hfresh hnodup
    have hfr := hfresh r (by simp)
    obtain ⟨info, -, heq⟩ := rl.UpdateRealmsRow_eq hWF init r
    obtain ⟨rl₁, h₁, hWF₁, hb₁, -, -, -⟩ := rl.UpdateRealmsRow_preserves hWF init r
    rw [rl.node_fresh r.name hfr] at heq
    simp only [Realm.fresh, RealmList.UpdateRealm.insertBuilds_nil] at heq
    rw [heq] at h₁
    rw [List.map_cons, List.nodup_cons] at hnodup
    have hmap₁ : ∀ n, n ≠ r.name → mapFind n rl₁.m_realms = mapFind n rl.m_realms := by
      intro n hn
      cases h₁
      exact mapFind_mapAssign_ne _ _ _ _ hn
    have hself₁ : ∃ realm, mapFind r.name rl₁.m_realms = some realm ∧
        realm.realmbuilds = buildSet (parsedBuilds r.realmbuilds) := by
      cases h₁
      exact ⟨_, mapFind_mapAssign_self _ _ _, rfl⟩
    have hpart₁ : ∀ v, rl₁.partition v = rl.partition v ++
        (if RealmList.UpdateRealm.firstBuild (buildSet (parsedBuilds r.realmbuilds)) ≠ 0 ∧
          rl.BelongsToVersion ((buildSet (parsedBuilds r.realmbuilds)).headD 0 % 2 ^ 32) = v
          then [r.name] else []) := by
      intro v
      cases h₁
      exact rl.byVersionAfter_getD hWF _ _ v
    have hbel : ∀ b, rl₁.BelongsToVersion b = rl.BelongsToVersion b := by
      intro b; simp only [RealmList.BelongsToVersion, hb₁]
    have hfresh₁ : ∀ r' ∈ rs, mapFind r'.name rl₁.m_realms = none := by
      intro r' hr'
      rw [hmap₁ _ (fun heq' => hnodup.1 (heq' ▸ List.mem_map_of_mem Row.name hr'))]
      exact hfresh r' (by simp [hr'])
    obtain ⟨rl₂, h₂, hb₂, hrows₂, hmap₂, hpart₂⟩ := ih rl₁ hWF₁ hfresh₁ hnodup.2
    refine ⟨rl₂, ?_, hb₂.trans hb₁, ?_, ?_, ?_⟩
    · rw [List.foldlM_cons, heq, h₁]; exact h₂
    · intro r' hr'
      rcases List.mem_cons.mp hr' with rfl | hr'
      · rw [hmap₂ _ hnodup.1]; exact hself₁
      · exact hrows₂ r' hr'
    · intro n hn
      simp only [List.map_cons, List.mem_cons, not_or] at hn
      rw [hmap₂ n hn.2, hmap₁ n hn.1]
    · intro v
      rw [hpart₂ v, hpart₁ v, List.filter_cons]
      simp only [hbel, List.append_assoc]
      congr 1
      split_ifs <;> simp_all

theorem RealmList.UpdateRealms_index (rl : RealmList) (hWF : rl.WF)
    (hrealms : rl.m_realms = [])
    (hparts : rl.m_realmsByVersion = List.replicate REALM_VERSION_COUNT [])
    (init : Bool) (result : Option QueryResult) (hd : QueryResult.distinctNames result)
    (rl' : RealmList) (h : rl.UpdateRealms init result = some rl') : rl'.DerivedIndex := by
  rw [← QueryResult.ofRows_rows result, rl.UpdateRealms_eq] at h
  have hWF0 : (rl.log LogLine.updating).WF := hWF
  obtain ⟨rl'', h'', hb, hrows, -, hpart⟩ := RealmList.loadRows_index init
    (QueryResult.rows result) (rl.log LogLine.updating) hWF0
    (by intro r _; simp [RealmList.log, hrealms, mapFind]) hd
  rw [h] at h''
  cases h''
  have hpart0 : ∀ v, (rl.log LogLine.updating).partition v = [] := by
    intro v
    simp only [RealmList.partition, RealmList.log, hparts, List.getD_eq_getElem?_getD,
      List.getElem?_replicate]
    split_ifs <;> rfl
  have hbel : ∀ b, rl'.BelongsToVersion b = rl.BelongsToVersion b := by
    intro b
    simp only [RealmList.BelongsToVersion, hb, RealmList.log]
  have hmem : ∀ v n, n ∈ rl'.partition v → ∃ r ∈ QueryResult.rows result, r.name = n ∧
      RealmList.UpdateRealm.firstBuild (buildSet (parsedBuilds r.realmbuilds)) ≠ 0 ∧
      rl.BelongsToVersion ((buildSet (parsedBuilds r.realmbuilds)).headD 0 % 2 ^ 32) = v := by
    intro v n hn
    rw [hpart v, hpart0 v, List.nil_append, List.mem_map] at hn
    obtain ⟨r, hr, hname⟩ := hn
    rw [List.mem_filter, decide_eq_true_eq] at hr
    exact ⟨r, hr.1, hname, hr.2.1, hr.2.2⟩
  refine ⟨fun v => ?_, fun v w n hv hw => ?_, fun v n hn => ?_⟩
  · rw [hpart v, hpart0 v, List.nil_append]
    exact List.Nodup.sublist (List.Sublist.map _ (List.filter_sublist _)) hd
  · obtain ⟨r, hr, hname, -, hera⟩ := hmem v n hv
    obtain ⟨r', hr', hname', -, hera'⟩ := hmem w n hw
    have : r = r' := List.inj_on_of_nodup_map hd hr hr' (hname.trans hname'.symm)
    subst this
    exact hera.symm.trans hera'
  · obtain ⟨r, hr, hname, hfb, hera⟩ := hmem v n hn
    obtain ⟨realm, hfind, hbuilds⟩ := hrows r hr
    cases hs : buildSet (parsedBuilds r.realmbuilds) with
    | nil => rw [hs] at hfb; exact absurd rfl hfb
    | cons b t =>
      obtain ⟨hb_mem, hle⟩ := buildSet_head_le _ b t hs
      have hb32 : b % 2 ^ 32 = b := Nat.mod_eq_of_lt (parsedBuilds_lt _ b hb_mem)
      rw [hs, List.headD_cons, hb32] at hera
      refine ⟨realm, b, t, hname ▸ hfind, hbuilds.trans hs, fun x hx => ?_, ?_⟩
      · rw [hbuilds] at hx
        exact hle x ((mem_buildSet _ x).mp hx)
      · rw [hbel]; exact hera.symm

theorem ReachableDistinct.reachable {rl : RealmList} (h : ReachableDistinct rl) :
    Reachable rl := by
  induction h with
  | init now log updateInterval result rl _ hinit =>
    exact Reachable.init now log updateInterval result rl hinit
  | step rl now result rl' _ _ hstep ih => exact Reachable.step rl now result rl' ih hstep

theorem ReachableDistinct.derivedIndex {rl : RealmList} (h : ReachableDistinct rl) :
    rl.DerivedIndex := by
  induction h with
  | init now log updateInterval result rl hd hinit =>
    have hWF0 : (RealmList.InitBuildToVersion
        { RealmList.ctor now log with m_UpdateInterval := updateInterval }).WF :=
      RealmList.WF_InitBuildToVersion _ ⟨rfl, by simp [RealmList.ctor]⟩
    exact RealmList.UpdateRealms_index _ hWF0 rfl rfl true result hd rl hinit
  | step rl now result rl' hreach hd hstep ih =>
    by_cases hc : rl.m_UpdateInterval = 0 ∨ rl.m_NextUpdateTime > now
    · rw [rl.UpdateIfNeed_of_not_due now result hc] at hstep
      cases hstep; exact ih
    · have hWF := hreach.reachable.wf.1
      rw [rl.UpdateIfNeed_of_due hWF.1 now result hc] at hstep
      have hWF1 : RealmList.WF { rl with
          m_NextUpdateTime := now + rl.m_UpdateInterval, m_realms := [],
          m_realmsByVersion := List.replicate REALM_VERSION_COUNT [] } :=
        ⟨by simp [REALM_VERSION_COUNT], hWF.2⟩
      exact RealmList.UpdateRealms_index _ hWF1 rfl rfl false result hd rl' hstep

theorem RealmList.loadRows_loaded (init : Bool) (rows : List Row) :
    ∀ (rl : RealmList), rl.WF →
    ∃ rl', rows.foldlM (fun rl f => rl.UpdateRealmsRow init f) rl = some rl' ∧
      (∀ n, mapFind n rl.m_realms ≠ none → mapFind n rl'.m_realms ≠ none) ∧
      (∀ n, n ∉ rows.map Row.name → mapFind n rl'.m_realms = mapFind n rl.m_realms) ∧
      (∀ r ∈ rows, mapFind r.name rl'.m_realms ≠ none) ∧
      ((rows.map Row.name).Nodup → ∀ r ∈ rows, ∃ realm,
        mapFind r.name rl'.m_realms = some realm ∧
        realm.realmflags = toUInt8 r.realmflags &&& allowedRealmFlags) := by
  induction rows with
  | nil =>
    intro rl _
    exact ⟨rl, rfl, fun _ h => h, fun _ _ => rfl, by simp, by simp⟩
  | cons r rs ih =>
    intro rl hWF
    obtain ⟨info, -, heq⟩ := rl.UpdateRealmsRow_eq hWF init r
    obtain ⟨rl₁, h₁, hWF₁, -, -, -, -⟩ := rl.UpdateRealmsRow_preserves hWF init r
    rw [heq] at h₁
    have hother₁ : ∀ n, n ≠ r.name → mapFind n rl₁.m_realms = mapFind n rl.m_realms := by
      intro n hn
      cases h₁
      exact mapFind_mapAssign_ne _ _ _ _ hn
    have hself₁ : ∃ realm, mapFind r.name rl₁.m_realms = some realm ∧
        realm.realmflags = toUInt8 r.realmflags &&& allowedRealmFlags := by
      cases h₁
      exact ⟨_, mapFind_mapAssign_self _ _ _, rfl⟩
    obtain ⟨rl₂, h₂, hkeep₂, hother₂, hrows₂, hflags₂⟩ := ih rl₁ hWF₁
    have hkeep₁ : ∀ n, mapFind n rl.m_realms ≠ none → mapFind n rl₁.m_realms ≠ none := by
      intro n hn
      by_cases hname : n = r.name
      · obtain ⟨realm, hrealm, -⟩ := hself₁
        rw [hname, hrealm]; simp
      · rw [hother₁ n hname]; exact hn
    refine ⟨rl₂, ?_, fun n hn => hkeep₂ n (hkeep₁ n hn), ?_, ?_, ?_⟩
    · rw [List.foldlM_cons, heq, h₁]; exact h₂
    · intro n hn
      simp only [List.map_cons, List.mem_cons, not_or] at hn
      rw [hother₂ n hn.2, hother₁ n hn.1]
    · intro r' hr'
      rcases List.mem_cons.mp hr' with rfl | hr'
      · obtain ⟨realm, hrealm, -⟩ := hself₁
        exact hkeep₂ _ (by rw [hrealm]; simp)
      · exact hrows₂ r' hr'
    · intro hnodup r' hr'
      rw [List.map_cons, List.nodup_cons] at hnodup
      rcases List.mem_cons.mp hr' with rfl | hr'
      · rw [hother₂ _ hnodup.1]; exact hself₁
      · exact hflags₂ hnodup.2 r' hr'

theorem LoginDatabase.Query_distinct (realmlist : List Row)
    (hnodup : (realmlist.map Row.name).Nodup) :
    QueryResult.distinctNames (LoginDatabase.Query realmlist) := by
  have hrows : ∀ l : List Row, QueryResult.rows (QueryResult.ofRows l) = l := by
    intro l; cases l <;> rfl
  unfold QueryResult.distinctNames LoginDatabase.Query
  rw [hrows]
  refine ((List.perm_insertionSort _ _).map Row.name).nodup_iff.mpr ?_
  exact List.Nodup.sublist (List.Sublist.map _ (List.filter_sublist _)) hnodup

theorem RealmList.UpdateIfNeed_loaded (rl : RealmList) (hWF : rl.WF) (now : Nat)
    (hdue : rl.reloads now) (result : Option QueryResult) :
    ∃ rl', rl.UpdateIfNeed now result = some rl' ∧
      (∀ r ∈ QueryResult.rows result, mapFind r.name rl'.m_realms ≠ none) ∧
      (QueryResult.distinctNames result → ∀ r ∈ QueryResult.rows result, ∃ realm,
        mapFind r.name rl'.m_realms = some realm ∧
        realm.realmflags = toUInt8 r.realmflags &&& allowedRealmFlags ∧
        realm.realmflags &&& REALM_FLAG_OFFLINE = toUInt8 r.realmflags &&& REALM_FLAG_OFFLINE) := by
  rw [rl.UpdateIfNeed_of_due hWF.1 now result hdue, ← QueryResult.ofRows_rows result,
    RealmList.UpdateRealms_eq, QueryResult.ofRows_rows]
  have hWF1 : (RealmList.log { rl with
      m_NextUpdateTime := now + rl.m_UpdateInterval, m_realms := [],
      m_realmsByVersion := List.replicate REALM_VERSION_COUNT [] } LogLine.updating).WF :=
    ⟨by simp [RealmList.log, REALM_VERSION_COUNT], hWF.2⟩
  obtain ⟨rl', h', -, -, hrows, hflags⟩ := RealmList.loadRows_loaded false
    (QueryResult.rows result) _ hWF1
  refine ⟨rl', h', hrows, fun hd r hr => ?_⟩
  obtain ⟨realm, hfind, hf⟩ := hflags hd r hr
  have hlt : toUInt8 r.realmflags < 256 := by
    unfold toUInt8; omega
  exact ⟨realm, hfind, hf, by rw [hf]; exact (allowedRealmFlags_keeps_offline _ hlt).1⟩

/-! ### The claims -/

/-- C1: every build at or above 18414, the build of the first catalog entry, is
answered with that first entry (build 18414, version 5.4.8). -/
theorem FindBuildInfo_open_upper_bound (b : Nat) (h : 18414 ≤ b) :
    ExpectedRealmdClientBuilds.head? = some ⟨18414, 5, 4, 8, ' ', noHash, noHash⟩ ∧
    FindBuildInfo b = some (some ⟨18414, 5, 4, 8, ' ', noHash, noHash⟩) := by
  refine ⟨rfl, ?_⟩
  simp [FindBuildInfo, ExpectedRealmdClientBuilds, h]

/-- Witness of C1 at build 20000. -/
theorem FindBuildInfo_open_upper_bound_witness :
    18414 ≤ 20000 ∧
    (ExpectedRealmdClientBuilds.head? = some ⟨18414, 5, 4, 8, ' ', noHash, noHash⟩ ∧
     FindBuildInfo 20000 = some (some ⟨18414, 5, 4, 8, ' ', noHash, noHash⟩)) :=
  ⟨by decide, FindBuildInfo_open_upper_bound 20000 (by decide)⟩

/-- C2: the entries strictly between the top entry and the terminator are the
fifteen builds 18273 ... 5086, and looking up the build of any of them returns
exactly that entry of the catalog, with all of its fields; for 12340 these are
version 3.3.5a and the two fingerprints. -/
theorem FindBuildInfo_exact_match :
    catalogMiddle.map (fun e => e.build) =
      [18273, 15595, 13930, 12340, 11723, 11403, 11159, 10505, 8606, 6141, 6005, 5875,
        5464, 5302, 5086] ∧
    (∀ e ∈ catalogMiddle, e ∈ ExpectedRealmdClientBuilds ∧ FindBuildInfo e.build = some (some e)) ∧
    FindBuildInfo 12340 = some (some ⟨12340, 3, 3, 5, 'a',
      [0xCD, 0xCB, 0xBD, 0x51, 0x88, 0x31, 0x5E, 0x6B, 0x4D, 0x19, 0x44, 0x9D, 0x49, 0x2D, 0xBC,
        0xFA, 0xF1, 0x56, 0xA3, 0x47],
      [0xB7, 0x06, 0xD1, 0x3F, 0xF2, 0xF4, 0x01, 0x88, 0x39, 0x72, 0x94, 0x61, 0xE3, 0xF8, 0xA0,
        0xE2, 0xB5, 0xFD, 0xC0, 0x34]⟩) := by
  refine ⟨by decide, ?_, by decide⟩
  intro e he
  have hmid : ∀ x ∈ catalogMiddle,
      x ∈ ExpectedRealmdClientBuilds ∧ FindBuildInfo x.build = some (some x) := by
    decide
  exact hmid e he

/-- C3: a build below 18414 that is the build of no catalog entry is answered
with `NULL`; so is build 0, the terminator is never returned as a match, and
for every argument the scan ends inside the array. -/
theorem FindBuildInfo_not_found (b : Nat) (hlt : b < 18414)
    (hne : ∀ e ∈ ExpectedRealmdClientBuilds, e.build ≠ b) :
    FindBuildInfo b = some none ∧
    FindBuildInfo 0 = some none ∧
    (∀ b' e, FindBuildInfo b' = some (some e) → e.build ≠ 0) ∧
    (∀ b', (FindBuildInfo b').isSome = true) := by
  refine ⟨?_, by decide, ?_, ?_⟩
  · rcases FindBuildInfo_cases b with h | ⟨e, he, _, h1, _⟩
    · exact h
    · rcases h1 with h1 | ⟨h1, h2⟩
      · exact absurd h1 (hne e he)
      · omega
  · intro b' e h
    rcases FindBuildInfo_cases b' with h' | ⟨e', _, h0, _, h'⟩
    · rw [h'] at h; cases h
    · rw [h'] at h; cases h; exact h0
  · intro b'
    rcases FindBuildInfo_cases b' with h' | ⟨e', _, _, _, h'⟩ <;> simp [h']

/-- Witness of C3 at build 9999. -/
theorem FindBuildInfo_not_found_witness :
    FindBuildInfo 9999 = some none ∧
    FindBuildInfo 0 = some none ∧
    (∀ b' e, FindBuildInfo b' = some (some e) → e.build ≠ 0) ∧
    (∀ b', (FindBuildInfo b').isSome = true) :=
  FindBuildInfo_not_found 9999 (by decide) (by decide)

/-- C4: after `InitBuildToVersion`, a build that is no key of `m_buildToVersion`
belongs to the oldest era `REALM_VERSION_VANILLA`; `BelongsToVersion` is a total
function, and in the freshly initialised registry the builds 9999 and 11723 are
such builds. -/
theorem BelongsToVersion_default (rl : RealmList) (b : Nat)
    (hkey : b ∉ rl.InitBuildToVersion.m_buildToVersion.map Prod.fst) :
    rl.InitBuildToVersion.BelongsToVersion b = REALM_VERSION_VANILLA ∧
    (∀ now log, ((RealmList.ctor now log).InitBuildToVersion.BelongsToVersion 9999 =
        REALM_VERSION_VANILLA ∧
      (RealmList.ctor now log).InitBuildToVersion.BelongsToVersion 11723 =
        REALM_VERSION_VANILLA)) :=
  ⟨rl.InitBuildToVersion.BelongsToVersion_of_not_key b hkey, fun _ _ => ⟨rfl, rfl⟩⟩

/-- Witness of C4: build 9999 in the registry right after construction. -/
theorem BelongsToVersion_default_witness :
    9999 ∉ (RealmList.ctor 0 []).InitBuildToVersion.m_buildToVersion.map Prod.fst ∧
    ((RealmList.ctor 0 []).InitBuildToVersion.BelongsToVersion 9999 = REALM_VERSION_VANILLA ∧
    (∀ now log, ((RealmList.ctor now log).InitBuildToVersion.BelongsToVersion 9999 =
        REALM_VERSION_VANILLA ∧
      (RealmList.ctor now log).InitBuildToVersion.BelongsToVersion 11723 =
        REALM_VERSION_VANILLA))) :=
  ⟨by decide, BelongsToVersion_default (RealmList.ctor 0 []) 9999 (by decide)⟩

/-- Counterexample to C5 as stated: build 21742 is none of the eight builds of
the literal mapping, yet it does not belong to the oldest era (it is mapped to
`REALM_VERSION_WOD`). -/
theorem BelongsToVersion_literal_counterexample :
    21742 ∉ [5875, 6005, 6141, 8606, 12340, 15595, 18273, 18414] ∧
    (RealmList.ctor 0 []).InitBuildToVersion.BelongsToVersion 21742 = REALM_VERSION_WOD ∧
    (RealmList.ctor 0 []).InitBuildToVersion.BelongsToVersion 21742 ≠ REALM_VERSION_VANILLA := by
  decide

/-- C5 (amended): after `InitBuildToVersion` on the constructed registry,
`BelongsToVersion` is vanilla for 5875, 6005 and 6141, TBC for 8606, WotLK for
12340, Cataclysm for 15595, MoP for 18273 and 18414, WoD for 21742, Legion for
26972, BfA for 35662, Shadowlands for 40000, and vanilla for every other build. -/
theorem BelongsToVersion_mapping (now : Nat) (log : List LogLine) (b : Nat) :
    (RealmList.ctor now log).InitBuildToVersion.BelongsToVersion b =
      if b = 5875 ∨ b = 6005 ∨ b = 6141 then REALM_VERSION_VANILLA
      else if b = 8606 then REALM_VERSION_TBC
      else if b = 12340 then REALM_VERSION_WOTLK
      else if b = 15595 then REALM_VERSION_CATA
      else if b = 18273 ∨ b = 18414 then REALM_VERSION_MOP
      else if b = 21742 then REALM_VERSION_WOD
      else if b = 26972 then REALM_VERSION_LEGION
      else if b = 35662 then REALM_VERSION_BFA
      else if b = 40000 then REALM_VERSION_SHADOWLANDS
      else REALM_VERSION_VANILLA := by
  by_cases h : b ∈ [5875, 6005, 6141, 8606, 12340, 15595, 18273, 18414, 21742, 26972, 35662, 40000]
  · simp only [List.mem_cons, List.mem_singleton, List.not_mem_nil, or_false] at h
    rcases h with h | h | h | h | h | h | h | h | h | h | h | h <;> subst h <;> rfl
  · have hv := (RealmList.ctor now log).InitBuildToVersion.BelongsToVersion_of_not_key b h
    rw [hv]
    simp only [List.mem_cons, List.mem_singleton, List.not_mem_nil, or_false, not_or] at h
    obtain ⟨h1, h2, h3, h4, h5, h6, h7, h8, h9, h10, h11, h12⟩ := h
    simp only [h1, h2, h3, h4, h5, h6, h7, h8, h9, h10, h11, h12, or_self, if_false]

/-- Counterexample to C6 as stated: the builds string `"0 12340"` parses to the
non-empty set `{0, 12340}` with minimum 0, and after `UpdateRealm` on a registry
without a realm `A` the realm is not referenced by the partition of
`BelongsToVersion(0)`: no partition holds a reference at all. -/
theorem UpdateRealm_lowest_build_counterexample :
    buildSet (parsedBuilds "0 12340") = [0, 12340] ∧
    mapFind "A" (RealmList.ctor 0 []).InitBuildToVersion.m_realms = none ∧
    ((RealmList.ctor 0 []).InitBuildToVersion.UpdateRealm 1 "A" ⟨8085, "10.0.0.1"⟩
        ⟨8085, "127.0.0.1"⟩ ⟨0, "255.255.255.0"⟩ 8085 0 0 1 0 0 "0 12340").map
      (fun rl' => (rl'.partition (rl'.BelongsToVersion 0), rl'.m_realmsByVersion)) =
      some ([], [[], [], [], [], [], [], [], [], []]) := by
  decide

/-- C6 (amended): when `UpdateRealm` loads a row into a registry that has no
realm of that name, and the builds string parses to build numbers whose minimum
`m` is non-zero and fits the 16 bits of `first_build`, then the loaded realm has
`realmBuildInfo.build == m` and is referenced by the partition of
`BelongsToVersion(m)` and by no other.  For `"12340 11723"` the build is 11723
and the reference is in the partition of the era of 11723, not in that of 12340. -/
theorem UpdateRealm_lowest_build_wins (rl : RealmList) (hWF : rl.WF) (hrefs : rl.RefsValid)
    (ID : Nat) (name : String) (address localAddr localSubmask : ACE_INET_Addr)
    (port icon realmflags timezone allowedSecurityLevel popu : Nat) (builds : String)
    (hfresh : mapFind name rl.m_realms = none)
    (m : Nat) (hmem : m ∈ parsedBuilds builds) (hmin : ∀ x ∈ parsedBuilds builds, m ≤ x)
    (hpos : 0 < m) (h16 : m < 2 ^ 16) :
    (∃ rl' realm,
      rl.UpdateRealm ID name address localAddr localSubmask port icon realmflags timezone
        allowedSecurityLevel popu builds = some rl' ∧
      mapFind name rl'.m_realms = some realm ∧
      realm.realmBuildInfo.build = m ∧
      ∀ v, name ∈ rl'.partition v ↔ v = rl'.BelongsToVersion m) ∧
    ((RealmList.ctor 0 []).InitBuildToVersion.UpdateRealm 1 "A" ⟨8085, "10.0.0.1"⟩
        ⟨8085, "127.0.0.1"⟩ ⟨0, "255.255.255.0"⟩ 8085 0 0 1 0 0 "12340 11723").map
      (fun rl' => ((mapFind "A" rl'.m_realms).map (fun r => r.realmBuildInfo.build),
        rl'.partition (rl'.BelongsToVersion 11723), rl'.partition (rl'.BelongsToVersion 12340))) =
      some (some 11723, ["A"], []) := by
  refine ⟨?_, by decide⟩
  obtain ⟨info, hinfo, heq⟩ := rl.UpdateRealm_eq hWF ID name address localAddr localSubmask port
    icon realmflags timezone allowedSecurityLevel popu builds
  obtain ⟨t, ht⟩ := buildSet_of_min (parsedBuilds builds) m hmem hmin
  have hm16 : toUInt16 m = m := Nat.mod_eq_of_lt h16
  have hm32 : m % 2 ^ 32 = m := Nat.mod_eq_of_lt (by omega)
  rw [rl.node_fresh name hfresh] at hinfo heq
  simp only [Realm.fresh, RealmList.UpdateRealm.insertBuilds_nil, ht] at hinfo heq
  have hfb : RealmList.UpdateRealm.firstBuild (m :: t) = m := hm16
  rw [hfb] at hinfo
  obtain ⟨info', hinfo', hbuild⟩ := RealmList.UpdateRealm.buildInfo_some
    ⟨0, 0, 0, 0, Char.ofNat 0, noHash, noHash⟩ m
  rw [hinfo] at hinfo'
  cases hinfo'
  refine ⟨_, _, heq, mapFind_mapAssign_self _ _ _, hbuild, fun v => ?_⟩
  show name ∈ (rl.byVersionAfter name (m :: t)).getD v [] ↔ v = rl.BelongsToVersion m
  rw [rl.byVersionAfter_mem hWF, hfb, List.headD_cons, hm32]
  have := rl.not_mem_partition_of_fresh hrefs name hfresh v
  constructor
  · rintro (h | ⟨-, -, h⟩)
    · exact absurd h this
    · exact h
  · intro h
    exact Or.inr ⟨by omega, rfl, h⟩

/-- Witness of C6: the row with builds `"12340 11723"` loaded right after
construction and `InitBuildToVersion`. -/
theorem UpdateRealm_lowest_build_wins_witness :
    ((RealmList.ctor 0 []).InitBuildToVersion.WF ∧
      (RealmList.ctor 0 []).InitBuildToVersion.RefsValid ∧
      mapFind "A" (RealmList.ctor 0 []).InitBuildToVersion.m_realms = none ∧
      11723 ∈ parsedBuilds "12340 11723" ∧ (∀ x ∈ parsedBuilds "12340 11723", 11723 ≤ x) ∧
      0 < 11723 ∧ 11723 < 2 ^ 16) ∧
    ∃ rl' realm,
      (RealmList.ctor 0 []).InitBuildToVersion.UpdateRealm 1 "A" ⟨8085, "10.0.0.1"⟩
        ⟨8085, "127.0.0.1"⟩ ⟨0, "255.255.255.0"⟩ 8085 0 0 1 0 0 "12340 11723" = some rl' ∧
      mapFind "A" rl'.m_realms = some realm ∧
      realm.realmBuildInfo.build = 11723 ∧
      ∀ v, "A" ∈ rl'.partition v ↔ v = rl'.BelongsToVersion 11723 :=
  ⟨by decide,
    (UpdateRealm_lowest_build_wins (RealmList.ctor 0 []).InitBuildToVersion (by decide)
      (by decide) 1 "A" ⟨8085, "10.0.0.1"⟩ ⟨8085, "127.0.0.1"⟩ ⟨0, "255.255.255.0"⟩ 8085 0 0 1 0 0
      "12340 11723" (by decide) 11723 (by decide) (by decide) (by decide) (by decide)).1⟩

/-- C7: a row with flags byte `f` is loaded whatever `f` is; the realm stored
under the name of the row has the flags `f & (OFFLINE | NEW_PLAYERS | RECOMMENDED
| SPECIFYBUILD)`, that is `f & 0x66`, and the flags diagnostic is among the
lines the row adds to the log exactly when `f` has a bit outside that set.  For
`f = 0xFF` the stored flags are `0x66`. -/
theorem UpdateRealms_flag_masking (rl : RealmList) (hWF : rl.WF) (init : Bool) (fields : Row) :
    allowedRealmFlags = 0x02 ||| 0x20 ||| 0x40 ||| 0x04 ∧ 0xFF &&& allowedRealmFlags = 0x66 ∧
    ∃ rl' realm lines,
      rl.UpdateRealmsRow init fields = some rl' ∧
      mapFind fields.name rl'.m_realms = some realm ∧
      realm.realmflags = toUInt8 fields.realmflags &&& allowedRealmFlags ∧
      rl'.sLog = rl.sLog ++ lines ∧
      (LogLine.badFlags (fields.id % 2 ^ 32) fields.name ∈ lines ↔
        ∃ i, i < 8 ∧ (toUInt8 fields.realmflags).testBit i = true ∧
          allowedRealmFlags.testBit i = false) := by
  refine ⟨by decide, by decide, ?_⟩
  obtain ⟨info, -, heq⟩ := rl.UpdateRealmsRow_eq hWF init fields
  refine ⟨_, _, _, heq, mapFind_mapAssign_self _ _ _, rfl,
    by rw [List.append_assoc, List.append_assoc], ?_⟩
  have hf : toUInt8 fields.realmflags < 256 := by
    unfold toUInt8; omega
  rw [← allowedRealmFlags_outside_iff _ hf]
  by_cases hbad : toUInt8 fields.realmflags &&& bitNot32 allowedRealmFlags = 0
  · simp only [hbad, ne_eq, not_true_eq_false, if_false, List.nil_append, iff_false]
    split_ifs <;> simp
  · simp [hbad]

/-- Witness of C7: the row with flags `0xFF` read right after construction. -/
theorem UpdateRealms_flag_masking_witness :
    (RealmList.ctor 0 []).InitBuildToVersion.WF ∧
    (allowedRealmFlags = 0x02 ||| 0x20 ||| 0x40 ||| 0x04 ∧ 0xFF &&& allowedRealmFlags = 0x66 ∧
    ∃ rl' realm lines,
      (RealmList.ctor 0 []).InitBuildToVersion.UpdateRealmsRow true
        ⟨1, "A", "10.0.0.1", "127.0.0.1", "255.255.255.0", 8085, 0, 0xFF, 1, 0, 0, "12340"⟩ =
          some rl' ∧
      mapFind "A" rl'.m_realms = some realm ∧
      realm.realmflags = toUInt8 0xFF &&& allowedRealmFlags ∧
      rl'.sLog = [] ++ lines ∧
      (LogLine.badFlags (1 % 2 ^ 32) "A" ∈ lines ↔
        ∃ i, i < 8 ∧ (toUInt8 0xFF).testBit i = true ∧ allowedRealmFlags.testBit i = false)) :=
  ⟨by decide, UpdateRealms_flag_masking (RealmList.ctor 0 []).InitBuildToVersion (by decide) true
    ⟨1, "A", "10.0.0.1", "127.0.0.1", "255.255.255.0", 8085, 0, 0xFF, 1, 0, 0, "12340"⟩⟩

/-- C8, the code at the failing input: `Initialize` loads a result with two rows
of the name `A`, the first with builds `"12340"`, the second with the empty
builds string.  The second row parses to no build, yet the stored realm keeps
the build set `{12340}` of the first row, no missing-builds diagnostic is logged
for it, and the WotLK partition references the realm, twice. -/
theorem UpdateRealm_zero_builds_existing_name :
    parsedBuilds "" = [] ∧
    Reachable staleRegistry ∧
    staleRegistry.m_realms.map (fun kv => (kv.1, kv.2.m_ID, kv.2.realmbuilds)) =
      [("A", 2, [12340])] ∧
    staleRegistry.partition REALM_VERSION_WOTLK = ["A", "A"] ∧
    LogLine.noBuilds "A" ∉ staleRegistry.sLog :=
  ⟨by decide,
    Reachable.init 0 [] 60 (some ⟨sampleRow, [{ sampleRow with id := 2, realmbuilds := "" }]⟩)
      staleRegistry (by decide),
    by decide, by decide, by decide⟩

/-- Exclusion of zero-build realms for a new name: when `UpdateRealm` loads a
row into a registry that has no realm of that name, and the builds string is
empty or all of its tokens parse to 0, the call succeeds, the realm is in the
name map under its name, no era partition references it (the partitions are
unchanged) and the missing builds are logged. -/
theorem UpdateRealm_zero_builds_excluded (rl : RealmList) (hWF : rl.WF) (hrefs : rl.RefsValid)
    (ID : Nat) (name : String) (address localAddr localSubmask : ACE_INET_Addr)
    (port icon realmflags timezone allowedSecurityLevel popu : Nat) (builds : String)
    (hfresh : mapFind name rl.m_realms = none)
    (hzero : ∀ x ∈ parsedBuilds builds, x = 0) :
    parsedBuilds "" = [] ∧
    ∃ rl' realm,
      rl.UpdateRealm ID name address localAddr localSubmask port icon realmflags timezone
        allowedSecurityLevel popu builds = some rl' ∧
      mapFind name rl'.m_realms = some realm ∧
      (∀ v, name ∉ rl'.partition v) ∧
      rl'.m_realmsByVersion = rl.m_realmsByVersion ∧
      rl'.sLog = rl.sLog ++ [LogLine.noBuilds name] := by
  refine ⟨by decide, ?_⟩
  obtain ⟨info, -, heq⟩ := rl.UpdateRealm_eq hWF ID name address localAddr localSubmask port
    icon realmflags timezone allowedSecurityLevel popu builds
  rw [rl.node_fresh name hfresh] at heq
  simp only [Realm.fresh, RealmList.UpdateRealm.insertBuilds_nil] at heq
  have hfb : RealmList.UpdateRealm.firstBuild (buildSet (parsedBuilds builds)) = 0 := by
    cases h : buildSet (parsedBuilds builds) with
    | nil => rfl
    | cons b t =>
      have := hzero b (buildSet_head_le _ b t h).1
      subst this
      rfl
  rw [hfb, rl.byVersionAfter_of_zero name _ hfb] at heq
  exact ⟨_, _, heq, mapFind_mapAssign_self _ _ _,
    fun v => rl.not_mem_partition_of_fresh hrefs name hfresh v, rfl, by simp⟩

/-- The exclusion for a new name at a row whose tokens `abc` and `x1` both parse
to 0. -/
theorem UpdateRealm_zero_builds_excluded_witness :
    (∀ x ∈ parsedBuilds "abc x1", x = 0) ∧
    (parsedBuilds "" = [] ∧
    ∃ rl' realm,
      (RealmList.ctor 0 []).InitBuildToVersion.UpdateRealm 1 "A" ⟨8085, "10.0.0.1"⟩
        ⟨8085, "127.0.0.1"⟩ ⟨0, "255.255.255.0"⟩ 8085 0 0 1 0 0 "abc x1" = some rl' ∧
      mapFind "A" rl'.m_realms = some realm ∧
      (∀ v, "A" ∉ rl'.partition v) ∧
      rl'.m_realmsByVersion = (RealmList.ctor 0 []).InitBuildToVersion.m_realmsByVersion ∧
      rl'.sLog = (RealmList.ctor 0 []).InitBuildToVersion.sLog ++ [LogLine.noBuilds "A"]) :=
  ⟨by decide,
    UpdateRealm_zero_builds_excluded (RealmList.ctor 0 []).InitBuildToVersion (by decide)
      (by decide) 1 "A" ⟨8085, "10.0.0.1"⟩ ⟨8085, "127.0.0.1"⟩ ⟨0, "255.255.255.0"⟩ 8085 0 0 1 0 0
      "abc x1" (by decide) (by decide)⟩

/-- Counterexample to C9 as stated: a reload of the single row `A` with builds
`"12340 abc"` into the cleared registry leaves a realm whose parsed build set
`{0, 12340}` is not empty, so one realm of the name map has at least one parsed
build, while the partition sizes sum to 0. -/
theorem UpdateRealms_partition_totals_counterexample :
    ((RealmList.ctor 0 []).InitBuildToVersion.UpdateRealms false
        (QueryResult.ofRows [{ sampleRow with realmbuilds := "12340 abc" }])).map
      (fun rl' => (rl'.m_realms.map (fun kv => (kv.1, kv.2.realmbuilds)),
        ((List.range REALM_VERSION_COUNT).map (fun v => (rl'.partition v).length)).sum,
        (rl'.m_realms.filter (fun kv => decide (kv.2.realmbuilds ≠ []))).length)) =
      some ([("A", [0, 12340])], 0, 1) := by
  decide

/-- C9 (amended): after a reload of rows with distinct names, whose build
numbers fit the 16 bits of `first_build`, into a cleared registry, the name map
holds one realm per row with the set of the parsed builds, and the sizes of the
era partitions (which `NumRealmsForBuild` reports) sum to the number of realms
of the name map whose parsed build set is non-empty and does not contain 0, that
is whose lowest parsed build is non-zero; a realm is referenced by an era
partition if and only if its parsed build set is of that kind. -/
theorem UpdateRealms_partition_totals (rl : RealmList) (hWF : rl.WF)
    (hrealms : rl.m_realms = [])
    (hparts : rl.m_realmsByVersion = List.replicate REALM_VERSION_COUNT [])
    (init : Bool) (rows : List Row) (hnodup : (rows.map Row.name).Nodup)
    (h16 : ∀ r ∈ rows, ∀ b ∈ parsedBuilds r.realmbuilds, b < 2 ^ 16) :
    ∃ rl', rl.UpdateRealms init (QueryResult.ofRows rows) = some rl' ∧
      rl'.m_realms.map (fun kv => (kv.1, kv.2.realmbuilds)) =
        rows.map (fun r => (r.name, buildSet (parsedBuilds r.realmbuilds))) ∧
      ((List.range REALM_VERSION_COUNT).map (fun v => (rl'.partition v).length)).sum =
        (rl'.m_realms.filter
          (fun kv => decide (kv.2.realmbuilds ≠ [] ∧ 0 ∉ kv.2.realmbuilds))).length ∧
      (∀ b, rl'.NumRealmsForBuild b = some (rl'.partition (rl'.BelongsToVersion b)).length) ∧
      ∀ r ∈ rows, (∃ v, r.name ∈ rl'.partition v) ↔
        (parsedBuilds r.realmbuilds ≠ [] ∧ 0 ∉ parsedBuilds r.realmbuilds) := by
  have hWF0 : (rl.log LogLine.updating).WF := hWF
  obtain ⟨rl', h', hmap, htot, hmem⟩ := RealmList.loadRows_fresh init rows
    (rl.log LogLine.updating) hWF0 (by intro r _; simp [RealmList.log, hrealms, mapFind]) hnodup
  obtain ⟨rl'', h'', hWF', -, -, -, -⟩ := RealmList.loadRows_preserves init rows
    (rl.log LogLine.updating) hWF0
  rw [h'] at h''
  cases h''
  have htot0 : (rl.log LogLine.updating).totalRefs = 0 := by
    simp [RealmList.totalRefs, RealmList.log, hparts, REALM_VERSION_COUNT]
  have hpart0 : ∀ n v, n ∉ (rl.log LogLine.updating).partition v := by
    intro n v
    simp [RealmList.partition, RealmList.log, hparts, List.getD_eq_getElem?_getD,
      List.getElem?_replicate]
    split_ifs <;> simp
  have hlisted : ∀ r ∈ rows,
      (RealmList.UpdateRealm.firstBuild (buildSet (parsedBuilds r.realmbuilds)) ≠ 0 ↔
        (parsedBuilds r.realmbuilds ≠ [] ∧ 0 ∉ parsedBuilds r.realmbuilds)) :=
    fun r hr => firstBuild_buildSet_ne_zero_iff _ (h16 r hr)
  refine ⟨rl', by rw [rl.UpdateRealms_eq]; exact h', ?_, ?_,
    fun b => rl'.NumRealmsForBuild_eq hWF' b, ?_⟩
  · rw [hmap]; simp [RealmList.log, hrealms]
  · rw [← rl'.totalRefs_eq hWF', htot, htot0, Nat.zero_add]
    have hcount : (rl'.m_realms.filter
        (fun kv => decide (kv.2.realmbuilds ≠ [] ∧ 0 ∉ kv.2.realmbuilds))).length =
        ((rl'.m_realms.map (fun kv => (kv.1, kv.2.realmbuilds))).filter
          (fun p => decide (p.2 ≠ [] ∧ 0 ∉ p.2))).length := by
      rw [List.filter_map, List.length_map]; rfl
    rw [hcount, hmap]
    simp only [RealmList.log, hrealms, List.map_nil, List.nil_append, List.filter_map,
      List.length_map]
    congr 1
    apply List.filter_congr
    intro r hr
    have := hlisted r hr
    simp only [Function.comp, decide_eq_decide]
    rw [this, Ne, Ne, buildSet_eq_nil_iff, mem_buildSet]
  · intro r hr
    rw [hmem, ← hlisted r hr]
    constructor
    · rintro (⟨v, hv⟩ | ⟨r', hr', hn, hl⟩)
      · exact absurd hv (hpart0 _ _)
      · have : r' = r := List.inj_on_of_nodup_map hnodup hr' hr hn
        exact this ▸ hl
    · intro hl
      exact Or.inr ⟨r, hr, rfl, hl⟩

/-- Witness of C9: three rows, the second of which has a token parsing to 0. -/
theorem UpdateRealms_partition_totals_witness :
    ((RealmList.ctor 0 []).InitBuildToVersion.WF ∧
      ([sampleRow, { sampleRow with name := "B", realmbuilds := "x 8606" },
        { sampleRow with name := "C", realmbuilds := "8606 5875" }].map Row.name).Nodup) ∧
    ∃ rl', (RealmList.ctor 0 []).InitBuildToVersion.UpdateRealms true
        (QueryResult.ofRows [sampleRow, { sampleRow with name := "B", realmbuilds := "x 8606" },
          { sampleRow with name := "C", realmbuilds := "8606 5875" }]) = some rl' ∧
      rl'.m_realms.map (fun kv => (kv.1, kv.2.realmbuilds)) =
        [sampleRow, { sampleRow with name := "B", realmbuilds := "x 8606" },
          { sampleRow with name := "C", realmbuilds := "8606 5875" }].map
            (fun r => (r.name, buildSet (parsedBuilds r.realmbuilds))) ∧
      ((List.range REALM_VERSION_COUNT).map (fun v => (rl'.partition v).length)).sum =
        (rl'.m_realms.filter
          (fun kv => decide (kv.2.realmbuilds ≠ [] ∧ 0 ∉ kv.2.realmbuilds))).length ∧
      (∀ b, rl'.NumRealmsForBuild b = some (rl'.partition (rl'.BelongsToVersion b)).length) ∧
      ∀ r ∈ [sampleRow, { sampleRow with name := "B", realmbuilds := "x 8606" },
          { sampleRow with name := "C", realmbuilds := "8606 5875" }],
        (∃ v, r.name ∈ rl'.partition v) ↔
          (parsedBuilds r.realmbuilds ≠ [] ∧ 0 ∉ parsedBuilds r.realmbuilds) :=
  ⟨by decide,
    UpdateRealms_partition_totals (RealmList.ctor 0 []).InitBuildToVersion (by decide) (by decide)
      (by decide) true _ (by decide) (by decide)⟩

/-- C10: in every registry state reachable by `Initialize` and `UpdateIfNeed`
and for every build, `NumRealmsForBuild` returns the number of references in the
range `GetIteratorsForBuild` returns, and that range is the whole partition of
the era `BelongsToVersion(build)`; neither call leaves the array. -/
theorem NumRealmsForBuild_consistent (rl : RealmList) (hreach : Reachable rl) (build : Nat) :
    ∃ range,
      rl.GetIteratorsForBuild build = some range ∧
      rl.NumRealmsForBuild build = some range.length ∧
      rl.m_realmsByVersion[rl.BelongsToVersion build]? = some range := by
  have hWF := hreach.wf.1
  have hlt := rl.BelongsToVersion_lt hWF build
  have hlen : rl.BelongsToVersion build < rl.m_realmsByVersion.length := by
    rw [hWF.1]; exact hlt
  refine ⟨rl.m_realmsByVersion[rl.BelongsToVersion build], ?_, ?_, List.getElem?_eq_getElem hlen⟩
  · unfold RealmList.GetIteratorsForBuild
    simp only [ge_iff_le, Nat.not_le.mpr hlt, if_false, List.getElem?_eq_getElem hlen]
  · unfold RealmList.NumRealmsForBuild
    rw [List.getElem?_eq_getElem hlen]; rfl

/-- Witness of C10: build 12340 in the registry initialised from one row. -/
theorem NumRealmsForBuild_consistent_witness :
    Reachable sampleRegistry ∧
    ∃ range,
      sampleRegistry.GetIteratorsForBuild 12340 = some range ∧
      sampleRegistry.NumRealmsForBuild 12340 = some range.length ∧
      sampleRegistry.m_realmsByVersion[sampleRegistry.BelongsToVersion 12340]? = some range :=
  have h : Reachable sampleRegistry :=
    Reachable.init 0 [] 60 (some ⟨sampleRow, []⟩) sampleRegistry (by decide)
  ⟨h, NumRealmsForBuild_consistent sampleRegistry h 12340⟩

/-- Counterexample to C11 as stated: with interval 60 and the next reload due
at 105, the calls at `t1 = 100` and `t2 = 110 < t1 + 60` are a no-op followed
by a reload: the second call moves the next-update time from 105 to 170, and
with a changed store it replaces the name map. -/
theorem UpdateIfNeed_idempotence_counterexample :
    scheduledRegistry.m_UpdateInterval = 60 ∧ scheduledRegistry.m_NextUpdateTime = 105 ∧
    (100 ≤ 110 ∧ 110 < 100 + scheduledRegistry.m_UpdateInterval) ∧
    scheduledRegistry.UpdateIfNeed 100 (some ⟨sampleRow, []⟩) = some scheduledRegistry ∧
    (scheduledRegistry.UpdateIfNeed 110 (some ⟨sampleRow, []⟩)).map
      (fun rl₂ => rl₂.m_NextUpdateTime) = some 170 ∧
    scheduledRegistry.m_realms.map Prod.fst = ["A"] ∧
    (scheduledRegistry.UpdateIfNeed 110 (some ⟨{ sampleRow with name := "B" }, []⟩)).map
      (fun rl₂ => (rl₂.m_NextUpdateTime, rl₂.m_realms.map Prod.fst)) = some (170, ["B"]) := by
  decide

/-- C11 (amended): with a non-zero update interval and calls of `UpdateIfNeed`
at `t1` and at `t2` with `t1 <= t2 < t1 + interval`, whatever the store returns,
both calls succeed and the reload is performed at most once across the two
calls; when the first call performed the reload, the second call changes
nothing: the whole registry, in particular the name map, the era partitions and
the next-update time, is after the second call what it was after the first.
(The bound `t2 < t1 + interval` alone is used; it excludes the interval 0.) -/
theorem UpdateIfNeed_idempotence (rl : RealmList) (hWF : rl.WF) (t1 t2 : Nat)
    (result1 result2 : Option QueryResult) (hwin : t2 < t1 + rl.m_UpdateInterval) :
    ∃ rl₁ rl₂, rl.UpdateIfNeed t1 result1 = some rl₁ ∧ rl₁.UpdateIfNeed t2 result2 = some rl₂ ∧
      ¬(rl.reloads t1 ∧ rl₁.reloads t2) ∧
      reloadCount rl₂.sLog ≤ reloadCount rl.sLog + 1 ∧
      (rl.reloads t1 → rl₂ = rl₁) := by
  by_cases hdue : rl.reloads t1
  · obtain ⟨rl₁, h₁, hWF₁, hnext, hi, -, hc⟩ := rl.UpdateIfNeed_reloads hWF t1 result1 hdue
    have hnot : rl₁.m_UpdateInterval = 0 ∨ rl₁.m_NextUpdateTime > t2 := by
      right; rw [hnext]; exact hwin
    have h₂ := rl₁.UpdateIfNeed_of_not_due t2 result2 hnot
    exact ⟨rl₁, rl₁, h₁, h₂, fun h => h.2 hnot, by omega, fun _ => rfl⟩
  · have h₁ : rl.UpdateIfNeed t1 result1 = some rl :=
      rl.UpdateIfNeed_of_not_due t1 result1 (not_not.mp hdue)
    by_cases hdue2 : rl.reloads t2
    · obtain ⟨rl₂, h₂, -, -, -, -, hc⟩ := rl.UpdateIfNeed_reloads hWF t2 result2 hdue2
      exact ⟨rl, rl₂, h₁, h₂, fun h => hdue h.1, by omega, fun h => absurd h hdue⟩
    · have h₂ := rl.UpdateIfNeed_of_not_due t2 result2 (not_not.mp hdue2)
      exact ⟨rl, rl, h₁, h₂, fun h => hdue h.1, by omega, fun h => absurd h hdue⟩

/-- Witness of C11: the registry initialised at time 0 with interval 60 reloads
at `t1 = 45`; the call at `t2 = 100` changes nothing. -/
theorem UpdateIfNeed_idempotence_witness :
    (sampleRegistry.WF ∧ sampleRegistry.m_UpdateInterval ≠ 0 ∧ 45 ≤ 100 ∧
      100 < 45 + sampleRegistry.m_UpdateInterval) ∧
    ∃ rl₁ rl₂, sampleRegistry.UpdateIfNeed 45 (some ⟨sampleRow, []⟩) = some rl₁ ∧
      rl₁.UpdateIfNeed 100 none = some rl₂ ∧
      ¬(sampleRegistry.reloads 45 ∧ rl₁.reloads 100) ∧
      reloadCount rl₂.sLog ≤ reloadCount sampleRegistry.sLog + 1 ∧
      (sampleRegistry.reloads 45 → rl₂ = rl₁) :=
  ⟨by decide,
    UpdateIfNeed_idempotence sampleRegistry (by decide) 45 100 (some ⟨sampleRow, []⟩) none
      (by decide)⟩

/-- Counterexample to C12 as stated: the registry `sampleRegistry` holds the
realm `A`, referenced by the WotLK partition; a refresh at time 10 whose query
returns no result leaves the name map and every partition empty. -/
theorem UpdateIfNeed_store_failure_counterexample :
    sampleRegistry.reloads 10 ∧
    sampleRegistry.m_realms.map Prod.fst = ["A"] ∧
    sampleRegistry.partition REALM_VERSION_WOTLK = ["A"] ∧
    (sampleRegistry.UpdateIfNeed 10 none).map
      (fun rl' => (rl'.m_realms.map Prod.fst, rl'.m_realmsByVersion)) =
      some ([], [[], [], [], [], [], [], [], [], []]) := by
  decide

/-- C12 (amended): if the query returns no result during a refresh triggered
by `UpdateIfNeed`, the refresh has already discarded the previous snapshot: the
call succeeds, the name map and every era partition are empty afterwards, and
the next-update time is `now + interval`. -/
theorem UpdateIfNeed_store_failure (rl : RealmList) (hWF : rl.WF) (now : Nat)
    (hdue : rl.reloads now) :
    ∃ rl', rl.UpdateIfNeed now none = some rl' ∧
      rl'.m_realms = [] ∧
      rl'.m_realmsByVersion = List.replicate REALM_VERSION_COUNT [] ∧
      (∀ v, rl'.partition v = []) ∧
      rl'.m_NextUpdateTime = now + rl.m_UpdateInterval := by
  refine ⟨_, rl.UpdateIfNeed_of_due hWF.1 now none hdue, rfl, rfl, fun v => ?_, rfl⟩
  simp only [RealmList.partition, RealmList.UpdateRealms, RealmList.log,
    List.getD_eq_getElem?_getD, List.getElem?_replicate]
  split_ifs <;> rfl

/-- Witness of C12: the refresh of `sampleRegistry` at time 10. -/
theorem UpdateIfNeed_store_failure_witness :
    (sampleRegistry.WF ∧ sampleRegistry.reloads 10) ∧
    ∃ rl', sampleRegistry.UpdateIfNeed 10 none = some rl' ∧
      rl'.m_realms = [] ∧
      rl'.m_realmsByVersion = List.replicate REALM_VERSION_COUNT [] ∧
      (∀ v, rl'.partition v = []) ∧
      rl'.m_NextUpdateTime = 10 + sampleRegistry.m_UpdateInterval :=
  ⟨by decide, UpdateIfNeed_store_failure sampleRegistry (by decide) 10 (by decide)⟩

/-- Counterexample to C13 as stated: a row whose flags are `0x02`, the OFFLINE
bit, passes the filter of the reload query, and the reload stores the realm
with the OFFLINE bit set. -/
theorem UpdateRealms_offline_counterexample :
    REALM_FLAG_OFFLINE = 0x02 ∧
    ({ sampleRow with realmflags := 0x02 } : Row).realmflags &&& REALM_FLAG_OFFLINE ≠ 0 ∧
    LoginDatabase.Query [{ sampleRow with realmflags := 0x02 }] =
      some ⟨{ sampleRow with realmflags := 0x02 }, []⟩ ∧
    (sampleRegistry.UpdateIfNeed 45
        (LoginDatabase.Query [{ sampleRow with realmflags := 0x02 }])).map
      (fun rl' => rl'.m_realms.map (fun kv => (kv.1, kv.2.realmflags &&& REALM_FLAG_OFFLINE))) =
      some [("A", 0x02)] := by
  decide

/-- C13 (amended): the reload query selects exactly the rows of the table whose
flag bit `0x01` is clear, whatever their OFFLINE bit (mask `0x02`) is.  The
reload loads every row the store returns: each is in the name map afterwards,
and when the names of the result are distinct the realm has the flags of its row
masked to the allowed set, with the OFFLINE bit of the row kept.  So after a
reload from the table the registry holds the rows with bit `0x01` clear and no
others, no realm has the bit `0x01` set, and a row with the OFFLINE bit set and
the bit `0x01` clear is loaded with the OFFLINE bit set. -/
theorem UpdateRealms_query_filter (rl : RealmList) (hWF : rl.WF) (now : Nat)
    (hdue : rl.reloads now) (realmlist : List Row) :
    (∀ r, r ∈ QueryResult.rows (LoginDatabase.Query realmlist) ↔
      r ∈ realmlist ∧ r.realmflags &&& 1 = 0) ∧
    (∀ result, ∃ rl₁, rl.UpdateIfNeed now result = some rl₁ ∧
      (∀ r ∈ QueryResult.rows result, mapFind r.name rl₁.m_realms ≠ none) ∧
      (QueryResult.distinctNames result → ∀ r ∈ QueryResult.rows result, ∃ realm,
        mapFind r.name rl₁.m_realms = some realm ∧
        realm.realmflags = toUInt8 r.realmflags &&& allowedRealmFlags ∧
        realm.realmflags &&& REALM_FLAG_OFFLINE =
          toUInt8 r.realmflags &&& REALM_FLAG_OFFLINE)) ∧
    ∃ rl', rl.UpdateIfNeed now (LoginDatabase.Query realmlist) = some rl' ∧
      (∀ kv ∈ rl'.m_realms,
        kv.2.realmflags &&& 1 = 0 ∧
        ∃ r ∈ realmlist, r.realmflags &&& 1 = 0 ∧ kv.1 = r.name ∧
          kv.2.realmflags = toUInt8 r.realmflags &&& allowedRealmFlags ∧
          kv.2.realmflags &&& REALM_FLAG_OFFLINE =
            toUInt8 r.realmflags &&& REALM_FLAG_OFFLINE) ∧
      (∀ r ∈ realmlist, r.realmflags &&& 1 = 0 → mapFind r.name rl'.m_realms ≠ none) ∧
      ((realmlist.map Row.name).Nodup → ∀ r ∈ realmlist, r.realmflags &&& 1 = 0 →
        ∃ realm, mapFind r.name rl'.m_realms = some realm ∧
          realm.realmflags = toUInt8 r.realmflags &&& allowedRealmFlags ∧
          realm.realmflags &&& REALM_FLAG_OFFLINE =
            toUInt8 r.realmflags &&& REALM_FLAG_OFFLINE) := by
  refine ⟨LoginDatabase.mem_Query realmlist, fun result => rl.UpdateIfNeed_loaded hWF now hdue
    result, ?_⟩
  obtain ⟨rl', h', hloaded, hflags⟩ :=
    rl.UpdateIfNeed_loaded hWF now hdue (LoginDatabase.Query realmlist)
  refine ⟨rl', h', fun kv hkv => ?_, fun r hr hclear => ?_, fun hnodup r hr hclear => ?_⟩
  · rw [rl.UpdateIfNeed_of_due hWF.1 now _ hdue,
      ← QueryResult.ofRows_rows (LoginDatabase.Query _), RealmList.UpdateRealms_eq] at h'
    have hWF1 : (RealmList.log { rl with
        m_NextUpdateTime := now + rl.m_UpdateInterval, m_realms := [],
        m_realmsByVersion := List.replicate REALM_VERSION_COUNT [] } LogLine.updating).WF :=
      ⟨by simp [RealmList.log, REALM_VERSION_COUNT], hWF.2⟩
    obtain ⟨rl'', h'', hm⟩ := RealmList.loadRows_realms false
      (QueryResult.rows (LoginDatabase.Query realmlist)) _ hWF1
    rw [h'] at h''
    cases h''
    rcases hm kv hkv with h | ⟨r, hr, hname, hflags'⟩
    · simp [RealmList.log] at h
    · have hf : toUInt8 r.realmflags < 256 := by
        unfold toUInt8; omega
      obtain ⟨hoff, hbit⟩ := allowedRealmFlags_keeps_offline _ hf
      obtain ⟨hmem, hclear⟩ := (LoginDatabase.mem_Query realmlist r).mp hr
      exact ⟨by rw [hflags']; exact hbit, r, hmem, hclear, hname, hflags',
        by rw [hflags']; exact hoff⟩
  · exact hloaded r ((LoginDatabase.mem_Query realmlist r).mpr ⟨hr, hclear⟩)
  · exact hflags (LoginDatabase.Query_distinct realmlist hnodup) r
      ((LoginDatabase.mem_Query realmlist r).mpr ⟨hr, hclear⟩)

/-- Witness of C13: `sampleRegistry` reloads at time 45 from `sampleTable`,
which holds an offline realm and a realm whose bit `0x01` is set. -/
theorem UpdateRealms_query_filter_witness :
    (sampleRegistry.WF ∧ sampleRegistry.reloads 45) ∧
    ((∀ r, r ∈ QueryResult.rows (LoginDatabase.Query sampleTable) ↔
      r ∈ sampleTable ∧ r.realmflags &&& 1 = 0) ∧
    (∀ result, ∃ rl₁, sampleRegistry.UpdateIfNeed 45 result = some rl₁ ∧
      (∀ r ∈ QueryResult.rows result, mapFind r.name rl₁.m_realms ≠ none) ∧
      (QueryResult.distinctNames result → ∀ r ∈ QueryResult.rows result, ∃ realm,
        mapFind r.name rl₁.m_realms = some realm ∧
        realm.realmflags = toUInt8 r.realmflags &&& allowedRealmFlags ∧
        realm.realmflags &&& REALM_FLAG_OFFLINE =
          toUInt8 r.realmflags &&& REALM_FLAG_OFFLINE)) ∧
    ∃ rl', sampleRegistry.UpdateIfNeed 45 (LoginDatabase.Query sampleTable) = some rl' ∧
      (∀ kv ∈ rl'.m_realms,
        kv.2.realmflags &&& 1 = 0 ∧
        ∃ r ∈ sampleTable, r.realmflags &&& 1 = 0 ∧ kv.1 = r.name ∧
          kv.2.realmflags = toUInt8 r.realmflags &&& allowedRealmFlags ∧
          kv.2.realmflags &&& REALM_FLAG_OFFLINE =
            toUInt8 r.realmflags &&& REALM_FLAG_OFFLINE) ∧
      (∀ r ∈ sampleTable, r.realmflags &&& 1 = 0 → mapFind r.name rl'.m_realms ≠ none) ∧
      ((sampleTable.map Row.name).Nodup → ∀ r ∈ sampleTable, r.realmflags &&& 1 = 0 →
        ∃ realm, mapFind r.name rl'.m_realms = some realm ∧
          realm.realmflags = toUInt8 r.realmflags &&& allowedRealmFlags ∧
          realm.realmflags &&& REALM_FLAG_OFFLINE =
            toUInt8 r.realmflags &&& REALM_FLAG_OFFLINE)) :=
  ⟨by decide, UpdateRealms_query_filter sampleRegistry (by decide) 45 (by decide) sampleTable⟩

/-- Counterexample to C14 as stated: for a row with builds `"20000"` the lookup
`FindBuildInfo(20000)` finds the top entry (18414, 5.4.8) by the open upper
bound, but the loaded realm has the placeholder with build 20000 and version
0.0.0, not the top entry. -/
theorem UpdateRealm_buildInfo_counterexample :
    parsedBuilds "20000" = [20000] ∧
    FindBuildInfo 20000 = some (some ⟨18414, 5, 4, 8, ' ', noHash, noHash⟩) ∧
    ((RealmList.ctor 0 []).InitBuildToVersion.UpdateRealm 1 "A" ⟨8085, "10.0.0.1"⟩
        ⟨8085, "127.0.0.1"⟩ ⟨0, "255.255.255.0"⟩ 8085 0 0 1 0 0 "20000").map
      (fun rl' => (mapFind "A" rl'.m_realms).map (fun r => r.realmBuildInfo)) =
      some (some ⟨20000, 0, 0, 0, ' ', noHash, noHash⟩) := by
  decide

/-- C14 (amended): when `UpdateRealm` has inserted the builds of a row and the
lowest member `m` of the build set of the realm (for a new name: the lowest
parsed build number) is non-zero and fits the 16 bits of `first_build`, the
`realmBuildInfo` of the realm is the catalog entry `FindBuildInfo(m)` whenever
that entry has the build `m` itself (an exact match, or `m = 18414`); it is the
placeholder (build `m`, version 0.0.0, blank hotfix) exactly when
`FindBuildInfo(m)` returns not found or `m > 18414`, the open upper-bound case. -/
theorem UpdateRealm_buildInfo (rl : RealmList) (hWF : rl.WF)
    (ID : Nat) (name : String) (address localAddr localSubmask : ACE_INET_Addr)
    (port icon realmflags timezone allowedSecurityLevel popu : Nat) (builds : String)
    (m : Nat) (t : List Nat)
    (hset : RealmList.UpdateRealm.insertBuilds (StrSplit builds " ") (rl.node name).realmbuilds =
      m :: t)
    (hpos : 0 < m) (h16 : m < 2 ^ 16) :
    (mapFind name rl.m_realms = none → ∃ t', buildSet (parsedBuilds builds) = m :: t') ∧
    ∃ rl' realm,
      rl.UpdateRealm ID name address localAddr localSubmask port icon realmflags timezone
        allowedSecurityLevel popu builds = some rl' ∧
      mapFind name rl'.m_realms = some realm ∧
      (∀ e, FindBuildInfo m = some (some e) → e.build = m → realm.realmBuildInfo = e) ∧
      ((FindBuildInfo m = some none ∨ 18414 < m) →
        realm.realmBuildInfo.build = m ∧ realm.realmBuildInfo.major_version = 0 ∧
        realm.realmBuildInfo.minor_version = 0 ∧ realm.realmBuildInfo.bugfix_version = 0 ∧
        realm.realmBuildInfo.hotfix_version = ' ') ∧
      (realm.realmBuildInfo.major_version = 0 ↔ (FindBuildInfo m = some none ∨ 18414 < m)) := by
  refine ⟨fun hfresh => ⟨t, ?_⟩, ?_⟩
  · rw [← RealmList.UpdateRealm.insertBuilds_nil, ← hset, rl.node_fresh name hfresh]; rfl
  obtain ⟨info, hinfo, heq⟩ := rl.UpdateRealm_eq hWF ID name address localAddr localSubmask port
    icon realmflags timezone allowedSecurityLevel popu builds
  have hfb : RealmList.UpdateRealm.firstBuild (m :: t) = m := Nat.mod_eq_of_lt h16
  rw [hset, hfb] at hinfo
  have hm0 : m ≠ 0 := by omega
  have hmajor : ∀ e ∈ ExpectedRealmdClientBuilds, e.build ≠ 0 → e.major_version ≠ 0 := by
    decide
  refine ⟨_, _, heq, mapFind_mapAssign_self _ _ _, ?_⟩
  show (∀ e, FindBuildInfo m = some (some e) → e.build = m → info = e) ∧
    ((FindBuildInfo m = some none ∨ 18414 < m) →
      info.build = m ∧ info.major_version = 0 ∧ info.minor_version = 0 ∧
      info.bugfix_version = 0 ∧ info.hotfix_version = ' ') ∧
    (info.major_version = 0 ↔ (FindBuildInfo m = some none ∨ 18414 < m))
  have hmax : ∀ e ∈ ExpectedRealmdClientBuilds, e.build ≤ 18414 := by
    decide
  unfold RealmList.UpdateRealm.buildInfo at hinfo
  rcases FindBuildInfo_cases m with hnone | ⟨e, he, he0, hcase, hsome⟩
  · simp only [hnone, ne_eq, hm0, not_false_eq_true, if_true, Option.bind_eq_bind,
      Option.some_bind, Option.some.injEq] at hinfo
    subst hinfo
    rw [hnone]
    simp
  · have hinj : ∀ e', some (some e) = some (some e') → e' = e := by
      intro e' h; simpa using h.symm
    rw [hsome]
    by_cases hb : e.build = m
    · simp only [hsome, ne_eq, hm0, not_false_eq_true, if_true, Option.bind_eq_bind,
        Option.some_bind, hb, Option.some.injEq] at hinfo
      subst hinfo
      have hle : ¬ 18414 < m := by
        have := hmax e he
        omega
      refine ⟨fun e' he' _ => (hinj e' he').symm, fun h => ?_, ?_⟩
      · rcases h with h | h
        · simp at h
        · exact absurd h hle
      · constructor
        · intro h; exact absurd h (hmajor e he he0)
        · rintro (h | h)
          · simp at h
          · exact absurd h hle
    · simp only [hsome, ne_eq, hm0, not_false_eq_true, if_true, Option.bind_eq_bind,
        Option.some_bind, hb, if_false, Option.some.injEq] at hinfo
      subst hinfo
      have hgt : 18414 < m := by
        rcases hcase with h | ⟨h, h'⟩
        · exact absurd h hb
        · omega
      refine ⟨fun e' he' hb' => ?_, fun _ => ⟨rfl, rfl, rfl, rfl, rfl⟩, ?_⟩
      · rw [hinj e' he'] at hb'; exact absurd hb' hb
      · simp [hgt]

/-- Witness of C14: the row with builds `"12340 11723"` loaded right after
construction and `InitBuildToVersion`; its lowest build is 11723. -/
theorem UpdateRealm_buildInfo_witness :
    (0 < 11723 ∧ 11723 < 2 ^ 16) ∧
    ((mapFind "A" (RealmList.ctor 0 []).InitBuildToVersion.m_realms = none →
      ∃ t', buildSet (parsedBuilds "12340 11723") = 11723 :: t') ∧
    ∃ rl' realm,
      (RealmList.ctor 0 []).InitBuildToVersion.UpdateRealm 1 "A" ⟨8085, "10.0.0.1"⟩
        ⟨8085, "127.0.0.1"⟩ ⟨0, "255.255.255.0"⟩ 8085 0 0 1 0 0 "12340 11723" = some rl' ∧
      mapFind "A" rl'.m_realms = some realm ∧
      (∀ e, FindBuildInfo 11723 = some (some e) → e.build = 11723 → realm.realmBuildInfo = e) ∧
      ((FindBuildInfo 11723 = some none ∨ 18414 < 11723) →
        realm.realmBuildInfo.build = 11723 ∧ realm.realmBuildInfo.major_version = 0 ∧
        realm.realmBuildInfo.minor_version = 0 ∧ realm.realmBuildInfo.bugfix_version = 0 ∧
        realm.realmBuildInfo.hotfix_version = ' ') ∧
      (realm.realmBuildInfo.major_version = 0 ↔
        (FindBuildInfo 11723 = some none ∨ 18414 < 11723))) :=
  ⟨by decide,
    UpdateRealm_buildInfo (RealmList.ctor 0 []).InitBuildToVersion (by decide) 1 "A"
      ⟨8085, "10.0.0.1"⟩ ⟨8085, "127.0.0.1"⟩ ⟨0, "255.255.255.0"⟩ 8085 0 0 1 0 0 "12340 11723"
      11723 [12340] (by decide) (by decide) (by decide)⟩

/-- C15: when the update interval is non-zero and the next-update time is not
later than `now`, `UpdateIfNeed` succeeds, sets the next-update time to
`now + interval`, and leaves the name map and the era partitions that loading
the rows returned by the store into an empty registry (with the same
build-to-era mapping) gives: nothing of the previous name map, build sets or
partitions has an influence on them. -/
theorem UpdateIfNeed_full_reload (rl : RealmList) (hWF : rl.WF) (now : Nat)
    (result : Option QueryResult) (hint : rl.m_UpdateInterval ≠ 0)
    (hnext : rl.m_NextUpdateTime ≤ now) :
    ∃ rl', rl.UpdateIfNeed now result = some rl' ∧
      rl'.m_NextUpdateTime = now + rl.m_UpdateInterval ∧
      ∀ (empty : RealmList) (init : Bool), empty.m_realms = [] →
        empty.m_realmsByVersion = List.replicate REALM_VERSION_COUNT [] →
        empty.m_buildToVersion = rl.m_buildToVersion →
        ∃ loaded, empty.UpdateRealms init result = some loaded ∧
          rl'.m_realms = loaded.m_realms ∧
          rl'.m_realmsByVersion = loaded.m_realmsByVersion := by
  have hdue : rl.reloads now := by
    unfold RealmList.reloads; omega
  obtain ⟨rl', h', -, hnext', -, -, -⟩ := rl.UpdateIfNeed_reloads hWF now result hdue
  refine ⟨rl', h', hnext', fun empty init he₁ he₂ he₃ => ?_⟩
  rw [rl.UpdateIfNeed_of_due hWF.1 now result hdue] at h'
  have hWF1 : RealmList.WF { rl with
      m_NextUpdateTime := now + rl.m_UpdateInterval, m_realms := [],
      m_realmsByVersion := List.replicate REALM_VERSION_COUNT [] } :=
    ⟨by simp [REALM_VERSION_COUNT], hWF.2⟩
  obtain ⟨r₁, r₂, hr₁, hr₂, e₁, e₂⟩ := RealmList.UpdateRealms_congr _ empty hWF1
    he₁.symm he₂.symm he₃.symm false init result
  rw [h'] at hr₁
  cases hr₁
  exact ⟨r₂, hr₂, e₁, e₂⟩

/-- Witness of C15: `sampleRegistry`, which holds the realm `A`, reloads at time
45 from a store that holds the realm `B` only. -/
theorem UpdateIfNeed_full_reload_witness :
    (sampleRegistry.WF ∧ sampleRegistry.m_UpdateInterval ≠ 0 ∧
      sampleRegistry.m_NextUpdateTime ≤ 45) ∧
    ∃ rl', sampleRegistry.UpdateIfNeed 45 (some ⟨{ sampleRow with name := "B" }, []⟩) = some rl' ∧
      rl'.m_NextUpdateTime = 45 + sampleRegistry.m_UpdateInterval ∧
      ∀ (empty : RealmList) (init : Bool), empty.m_realms = [] →
        empty.m_realmsByVersion = List.replicate REALM_VERSION_COUNT [] →
        empty.m_buildToVersion = sampleRegistry.m_buildToVersion →
        ∃ loaded, empty.UpdateRealms init (some ⟨{ sampleRow with name := "B" }, []⟩) =
            some loaded ∧
          rl'.m_realms = loaded.m_realms ∧
          rl'.m_realmsByVersion = loaded.m_realmsByVersion :=
  ⟨by decide,
    UpdateIfNeed_full_reload sampleRegistry (by decide) 45
      (some ⟨{ sampleRow with name := "B" }, []⟩) (by decide) (by decide)⟩

/-- C16: whenever the update interval is 0 or the next-update time is later
than `now`, `UpdateIfNeed` returns the registry as it was, with the interval,
the next-update time, the name map, every era partition and the log unchanged,
and it does so whatever the store would return: the store is not queried. -/
theorem UpdateIfNeed_noop (rl : RealmList) (now : Nat)
    (h : rl.m_UpdateInterval = 0 ∨ rl.m_NextUpdateTime > now) :
    ∀ result, ∃ rl', rl.UpdateIfNeed now result = some rl' ∧
      rl'.m_UpdateInterval = rl.m_UpdateInterval ∧
      rl'.m_NextUpdateTime = rl.m_NextUpdateTime ∧
      rl'.m_realms = rl.m_realms ∧
      rl'.m_realmsByVersion = rl.m_realmsByVersion ∧
      reloadCount rl'.sLog = reloadCount rl.sLog ∧
      rl' = rl :=
  fun result => ⟨rl, rl.UpdateIfNeed_of_not_due now result h, rfl, rfl, rfl, rfl, rfl, rfl⟩

/-- Witness of C16: `scheduledRegistry`, whose next reload is due at 105, at
time 100. -/
theorem UpdateIfNeed_noop_witness :
    (scheduledRegistry.m_UpdateInterval = 0 ∨ scheduledRegistry.m_NextUpdateTime > 100) ∧
    ∀ result, ∃ rl', scheduledRegistry.UpdateIfNeed 100 result = some rl' ∧
      rl'.m_UpdateInterval = scheduledRegistry.m_UpdateInterval ∧
      rl'.m_NextUpdateTime = scheduledRegistry.m_NextUpdateTime ∧
      rl'.m_realms = scheduledRegistry.m_realms ∧
      rl'.m_realmsByVersion = scheduledRegistry.m_realmsByVersion ∧
      reloadCount rl'.sLog = reloadCount scheduledRegistry.sLog ∧
      rl' = scheduledRegistry :=
  ⟨by decide, UpdateIfNeed_noop scheduledRegistry 100 (by decide)⟩

/-- C17: a row with security-level byte `s` is loaded whatever `s` is, and the
realm stored under its name has `allowedSecurityLevel` equal to `s` when
`s <= SEC_ADMINISTRATOR` and to `SEC_ADMINISTRATOR` otherwise, that is
`min(s, SEC_ADMINISTRATOR)`. -/
theorem UpdateRealms_security_clamp (rl : RealmList) (hWF : rl.WF) (init : Bool)
    (fields : Row) :
    ∃ rl' realm,
      rl.UpdateRealmsRow init fields = some rl' ∧
      mapFind fields.name rl'.m_realms = some realm ∧
      realm.allowedSecurityLevel =
        (if toUInt8 fields.allowedSecurityLevel ≤ SEC_ADMINISTRATOR
          then toUInt8 fields.allowedSecurityLevel else SEC_ADMINISTRATOR) ∧
      realm.allowedSecurityLevel = min (toUInt8 fields.allowedSecurityLevel) SEC_ADMINISTRATOR := by
  obtain ⟨info, -, heq⟩ := rl.UpdateRealmsRow_eq hWF init fields
  exact ⟨_, _, heq, mapFind_mapAssign_self _ _ _, Nat.min_def .., rfl⟩

/-- Witness of C17: a row with security level 200 read right after
construction. -/
theorem UpdateRealms_security_clamp_witness :
    (RealmList.ctor 0 []).InitBuildToVersion.WF ∧
    ∃ rl' realm,
      (RealmList.ctor 0 []).InitBuildToVersion.UpdateRealmsRow true
        { sampleRow with allowedSecurityLevel := 200 } = some rl' ∧
      mapFind "A" rl'.m_realms = some realm ∧
      realm.allowedSecurityLevel =
        (if toUInt8 200 ≤ SEC_ADMINISTRATOR then toUInt8 200 else SEC_ADMINISTRATOR) ∧
      realm.allowedSecurityLevel = min (toUInt8 200) SEC_ADMINISTRATOR :=
  ⟨by decide,
    UpdateRealms_security_clamp (RealmList.ctor 0 []).InitBuildToVersion (by decide) true
      { sampleRow with allowedSecurityLevel := 200 }⟩

/-- C18, the code at the failing input: `Initialize` on a result with two rows
of the name `A`, with builds 12340 and then 5875, reaches a state in which the
realm `A`, whose lowest build 5875 belongs to the vanilla era, is referenced by
the WotLK partition as well as by the vanilla partition. -/
theorem DerivedIndex_repeated_name :
    Reachable splitRegistry ∧
    splitRegistry.m_realms.map (fun kv => (kv.1, kv.2.realmbuilds)) = [("A", [5875, 12340])] ∧
    splitRegistry.BelongsToVersion 5875 = REALM_VERSION_VANILLA ∧
    splitRegistry.partition REALM_VERSION_VANILLA = ["A"] ∧
    splitRegistry.partition REALM_VERSION_WOTLK = ["A"] :=
  ⟨Reachable.init 0 [] 60
      (some ⟨sampleRow, [{ sampleRow with id := 2, realmbuilds := "5875" }]⟩) splitRegistry
      (by decide),
    by decide, by decide, by decide, by decide⟩

/-- The index invariant for stores without repeated names: in every registry
state reachable by `Initialize` followed by any sequence of `UpdateIfNeed`
calls, every reference held in an era partition designates a realm of the name
map; when moreover no query result holds two rows of the same name, each realm
is referenced at most once and in at most one partition, and that partition is
the one of `BelongsToVersion` of the lowest build of the build set of the realm. -/
theorem DerivedIndex_reachable (rl : RealmList) (h : ReachableDistinct rl) :
    (∀ rl₀, Reachable rl₀ → ∀ v n, n ∈ rl₀.partition v → mapFind n rl₀.m_realms ≠ none) ∧
    (∀ v n, n ∈ rl.partition v → mapFind n rl.m_realms ≠ none) ∧
    (∀ v, (rl.partition v).Nodup) ∧
    (∀ v w n, n ∈ rl.partition v → n ∈ rl.partition w → v = w) ∧
    (∀ v n, n ∈ rl.partition v → ∃ realm b t, mapFind n rl.m_realms = some realm ∧
      realm.realmbuilds = b :: t ∧ (∀ x ∈ realm.realmbuilds, b ≤ x) ∧
      v = rl.BelongsToVersion b) := by
  have hvalid : ∀ rl₀, Reachable rl₀ → ∀ v n, n ∈ rl₀.partition v →
      mapFind n rl₀.m_realms ≠ none := by
    intro rl₀ h₀ v n hn hnone
    exact rl₀.not_mem_partition_of_fresh h₀.wf.2 n hnone v hn
  obtain ⟨h₁, h₂, h₃⟩ := h.derivedIndex
  exact ⟨hvalid, hvalid rl h.reachable, h₁, h₂, h₃⟩

/-- The index invariant at the registry initialised from the one row
`sampleRow`. -/
theorem DerivedIndex_reachable_witness :
    ReachableDistinct sampleRegistry ∧
    ((∀ rl₀, Reachable rl₀ → ∀ v n, n ∈ rl₀.partition v → mapFind n rl₀.m_realms ≠ none) ∧
    (∀ v n, n ∈ sampleRegistry.partition v → mapFind n sampleRegistry.m_realms ≠ none) ∧
    (∀ v, (sampleRegistry.partition v).Nodup) ∧
    (∀ v w n, n ∈ sampleRegistry.partition v → n ∈ sampleRegistry.partition w → v = w) ∧
    (∀ v n, n ∈ sampleRegistry.partition v → ∃ realm b t,
      mapFind n sampleRegistry.m_realms = some realm ∧
      realm.realmbuilds = b :: t ∧ (∀ x ∈ realm.realmbuilds, b ≤ x) ∧
      v = sampleRegistry.BelongsToVersion b)) :=
  have h : ReachableDistinct sampleRegistry :=
    ReachableDistinct.init 0 [] 60 (some ⟨sampleRow, []⟩) sampleRegistry (by decide) (by decide)
  ⟨h, DerivedIndex_reachable sampleRegistry h⟩

/-- C19, the code at the failing input: `Initialize` loads a result with two
rows of the name `A`, the first with id 1 and builds `"5875"`, the second with
id 2 and builds `"12340"`.  The realm stored under `A` has the id of the second
row, but its build set is `{5875, 12340}`, not the set `{12340}` parsed from the
second row, its `realmBuildInfo` is the entry of build 5875, not of 12340, and
the vanilla partition references it twice. -/
theorem UpdateRealm_existing_name_accumulates :
    buildSet (parsedBuilds "12340") = [12340] ∧
    duplicateRegistry.m_realms.map
      (fun kv => (kv.1, kv.2.m_ID, kv.2.realmbuilds, kv.2.realmBuildInfo.build,
        kv.2.realmBuildInfo.major_version)) = [("A", 2, [5875, 12340], 5875, 1)] ∧
    duplicateRegistry.m_realmsByVersion = [["A", "A"], [], [], [], [], [], [], [], []] := by
  decide

/-- C20: in every registry state reachable by `Initialize` and `UpdateIfNeed`,
and right after `InitBuildToVersion` on the constructed registry, the era
`BelongsToVersion(b)` of every build is below `REALM_VERSION_COUNT`; so the
array accesses of `NumRealmsForBuild` and of `AddRealmToBuildList` (for a realm
with a build) are inside the array, and `GetIteratorsForBuild` returns the
partition of that era, never the empty range of its out-of-range branch. -/
theorem BelongsToVersion_in_range (rl : RealmList) (h : Reachable rl) (b : Nat) :
    (∀ now log b', (RealmList.ctor now log).InitBuildToVersion.BelongsToVersion b' <
      REALM_VERSION_COUNT) ∧
    rl.BelongsToVersion b < REALM_VERSION_COUNT ∧
    rl.BelongsToVersion b < rl.m_realmsByVersion.length ∧
    rl.NumRealmsForBuild b = some (rl.partition (rl.BelongsToVersion b)).length ∧
    rl.GetIteratorsForBuild b = some (rl.partition (rl.BelongsToVersion b)) ∧
    (∀ realm, realm.realmbuilds ≠ [] → ∃ rl', rl.AddRealmToBuildList realm = some rl') := by
  have hWF := h.wf.1
  have hlt := rl.BelongsToVersion_lt hWF b
  have hlen : rl.BelongsToVersion b < rl.m_realmsByVersion.length := by
    rw [hWF.1]; exact hlt
  refine ⟨fun now log b' => ?_, hlt, hlen, rl.NumRealmsForBuild_eq hWF b, ?_, ?_⟩
  · exact RealmList.BelongsToVersion_lt _
      (RealmList.WF_InitBuildToVersion (RealmList.ctor now log)
        ⟨rfl, by simp [RealmList.ctor]⟩) b'
  · unfold RealmList.GetIteratorsForBuild RealmList.partition
    simp only [ge_iff_le, Nat.not_le.mpr hlt, if_false, List.getElem?_eq_getElem hlen,
      List.getD_eq_getElem?_getD, Option.getD_some]
  · intro realm hne
    cases hs : realm.realmbuilds with
    | nil => exact absurd hs hne
    | cons x t =>
      have hlen' : rl.BelongsToVersion (toUInt32 (toInt32 x)) < rl.m_realmsByVersion.length := by
        rw [hWF.1]; exact rl.BelongsToVersion_lt hWF _
      unfold RealmList.AddRealmToBuildList
      simp only [hs, List.getElem?_eq_getElem hlen']
      exact ⟨_, rfl⟩

/-- Witness of C20: build 40000 in the registry initialised from one row. -/
theorem BelongsToVersion_in_range_witness :
    Reachable sampleRegistry ∧
    ((∀ now log b', (RealmList.ctor now log).InitBuildToVersion.BelongsToVersion b' <
      REALM_VERSION_COUNT) ∧
    sampleRegistry.BelongsToVersion 40000 < REALM_VERSION_COUNT ∧
    sampleRegistry.BelongsToVersion 40000 < sampleRegistry.m_realmsByVersion.length ∧
    sampleRegistry.NumRealmsForBuild 40000 =
      some (sampleRegistry.partition (sampleRegistry.BelongsToVersion 40000)).length ∧
    sampleRegistry.GetIteratorsForBuild 40000 =
      some (sampleRegistry.partition (sampleRegistry.BelongsToVersion 40000)) ∧
    (∀ realm, realm.realmbuilds ≠ [] →
      ∃ rl', sampleRegistry.AddRealmToBuildList realm = some rl')) :=
  have h : Reachable sampleRegistry :=
    Reachable.init 0 [] 60 (some ⟨sampleRow, []⟩) sampleRegistry (by decide)
  ⟨h, BelongsToVersion_in_range sampleRegistry h 40000⟩

end Realmd
